import Mathlib

/-!
# m6rclib — verification of the Metaphor compiler front-end

Shallow embedding of `src/m6rclib/metaphor_parser.py` and
`src/m6rclib/metaphor_ast_node.py`.

The repository ships the parser and the AST node model, but not
`metaphor_token.py`, `metaphor_lexer.py` or `embed_lexer.py`; those are
modelled from the spec (sections 3, 4.1, 4.2): a lexer is represented by
the token sequence it will produce, pulled one token at a time, yielding
an `END_OF_FILE` token on exhaustion.  The filesystem, the glob expander
and the tokenisation function of the structural lexer are collected in an
environment record `Env` that every theorem quantifies over.

The Python interpreter loops (`while True` in `parse`,
`get_next_token` and the block parsers) are modelled by structural
recursion on an explicit fuel argument; running out of fuel is a distinct
outcome (`.fuel`) that no theorem counts as evidence.

The parser state mirrors `MetaphorParser.__init__`.  One deliberate
representation choice: the Python lexer stack is a list with `append` /
`[-1]` / `pop` at the *end*; here the stack is kept top-first (push is
cons, the top is the head), which is the same abstract stack.
-/

/-- Token kinds, spec section 3 (`metaphor_token.py` is not in src).
Modelled from the spec: `ROLE, CONTEXT, ACTION, INCLUDE, EMBED,
KEYWORD_TEXT, TEXT, INDENT, OUTDENT, BAD_INDENT, BAD_OUTDENT, TAB,
END_OF_FILE, NONE`. -/
inductive TokenType where
  | ROLE
  | CONTEXT
  | ACTION
  | INCLUDE
  | EMBED
  | KEYWORD_TEXT
  | TEXT
  | INDENT
  | OUTDENT
  | BAD_INDENT
  | BAD_OUTDENT
  | TAB
  | END_OF_FILE
  | NONE
deriving DecidableEq

/-- Modelled from the spec (section 3, `metaphor_token.py` is not in src):
a token is a kind plus value, the full raw source line (`input`),
filename, line and column.  The parser reads exactly these six fields
(`token.type`, `token.value`, `token.input`, `token.filename`,
`token.line`, `token.column`) and builds one with
`Token(TokenType.END_OF_FILE, "", "", "", 0, 0)`. -/
structure Token where
  type : TokenType
  value : String
  input : String
  filename : String
  line : Nat
  column : Nat
deriving DecidableEq

/-- `MetaphorParserSyntaxError` (metaphor_parser.py lines 34-42): message,
filename, line, column and the offending raw source line. -/
structure MetaphorParserSyntaxError where
  message : String
  filename : String
  line : Nat
  column : Nat
  input_text : String
deriving DecidableEq

/-- `MetaphorASTNodeType` (metaphor_ast_node.py lines 23-31). -/
inductive MetaphorASTNodeType where
  | ROOT
  | TEXT
  | ROLE
  | CONTEXT
  | ACTION
deriving DecidableEq

/-- The value view of a `MetaphorASTNode` tree as the parser builds it:
a node type, a value and the ordered children.  (The parser attaches each
freshly built node exactly once and never uses the parent back-reference,
so the value tree coincides with the Python object tree; the
object-identity semantics of `metaphor_ast_node.py` itself is modelled
separately below for the AST-node claims.) -/
inductive MetaphorAST where
  | node (node_type : MetaphorASTNodeType) (value : String) (children : List MetaphorAST)

/-- `MetaphorASTNode.attach_child` as used by the parser: append to the
ordered children. -/
def MetaphorAST.attachChild : MetaphorAST → MetaphorAST → MetaphorAST
  | .node t v cs, c => .node t v (cs ++ [c])

/-- The node type of the root of a value tree. -/
def MetaphorAST.nodeType : MetaphorAST → MetaphorASTNodeType
  | .node t _ _ => t

/-- The value of the root of a value tree. -/
def MetaphorAST.rootValue : MetaphorAST → String
  | .node _ v _ => v

/-- The children of the root of a value tree. -/
def MetaphorAST.children : MetaphorAST → List MetaphorAST
  | .node _ _ cs => cs

/-- Outcome of the low-level `open`/`read` call, used to model
`_read_file`'s `except` arms (metaphor_parser.py lines 257-269). -/
inductive OSFailure where
  | notFound
  | permission
  | isADirectory
  | other (msg : String)
deriving DecidableEq

/-- Modelled from the spec: a lexer (structural or embed) is represented
by the token sequence it will produce (spec 4.1/4.2: pull-style next
token, `END_OF_FILE` on exhaustion, idempotent afterwards), plus the
filename it was built for. -/
structure Lexer where
  tokens : List Token
  filename : String
deriving DecidableEq

/-- One pull on a lexer.  A lexer whose precomputed sequence is exhausted
keeps producing an `END_OF_FILE` token (spec 4.1). -/
def Lexer.next (l : Lexer) : Token × Lexer :=
  match l.tokens with
  | [] => (⟨.END_OF_FILE, "", "", "", 0, 0⟩, l)
  | t :: ts => (t, ⟨ts, l.filename⟩)

/-- The external collaborators the parser consumes (spec section 6):
filesystem existence check, canonicalisation, read-to-string, glob
expansion, the structural lexer's tokenisation (modelled from the spec,
`metaphor_lexer.py` is not in src: content and filename to token
sequence) and the extension-to-language lookup used by the embed lexer. -/
structure Env where
  pathExists : String → Bool
  realpath : String → String
  openRead : String → Except OSFailure String
  glob : String → Bool → List String
  lex : String → String → List Token
  langOf : String → String

/-- `os.path.isabs` on a POSIX path. -/
def os_path_isabs (s : String) : Bool := s.startsWith "/"

/-- `os.path.join` on two POSIX path components: an absolute second
component replaces the first. -/
def os_path_join (a b : String) : String :=
  if os_path_isabs b then b
  else if a = "" then b
  else if a.endsWith "/" then a ++ b
  else a ++ "/" ++ b

/-- `MetaphorLexer(input_text, filename)` as the parser constructs it:
the token sequence is the environment's tokenisation of the content. -/
def MetaphorLexer (env : Env) (input_text : String) (filename : String) : Lexer :=
  ⟨env.lex input_text filename, filename⟩

/-- Modelled from the spec (section 4.2, `embed_lexer.py` is not in src):
`EmbedLexer(input_text, filename)` synthesises the fixed five-token
sequence `TEXT("File: <filename>")`, `TEXT("` fence with language tag)`,
`TEXT(<raw content>)`, `TEXT(fence)`, `END_OF_FILE`; the language tag is
the extension lookup collaborator's answer for the filename. -/
def EmbedLexer (env : Env) (input_text : String) (filename : String) : Lexer :=
  ⟨[⟨.TEXT, "File: " ++ filename, "", filename, 1, 1⟩,
    ⟨.TEXT, "```" ++ env.langOf filename, "", filename, 2, 1⟩,
    ⟨.TEXT, input_text, "", filename, 3, 1⟩,
    ⟨.TEXT, "```", "", filename, 4, 1⟩,
    ⟨.END_OF_FILE, "", "", filename, 5, 1⟩], filename⟩

/-- `MetaphorParser`'s mutable attributes (metaphor_parser.py lines
64-70).  `previously_seen_files` is a Python set of canonical paths,
modelled as the list of elements in insertion order (newest first);
only membership and insertion are used. -/
structure ParserState where
  syntax_tree : MetaphorAST
  parse_errors : List MetaphorParserSyntaxError
  lexers : List Lexer
  previously_seen_files : List String
  search_paths : List String
  current_token : Option Token

/-- `MetaphorParser.__init__`: fresh ROOT tree, no errors, no lexers, no
seen files, no search paths, no current token. -/
def MetaphorParser.init : ParserState :=
  ⟨.node .ROOT "" [], [], [], [], [], none⟩

/-- The two exception kinds that can cross method boundaries during the
token walk: `FileNotFoundError` (as produced by `_find_file_path` /
`_read_file`, carrying its message) and
`MetaphorParserFileAlreadyUsedError` (carrying the offending filename and
`self.current_token`). -/
inductive ParseExn where
  | fileNotFound (message : String)
  | fileAlreadyUsed (filename : String) (token : Option Token)
deriving DecidableEq

/-- Result of one parser-internal operation: normal return, a raised
exception (both carrying the parser state), or fuel exhaustion of the
model. -/
inductive PR (α : Type) where
  | ok (a : α) (s : ParserState)
  | exn (e : ParseExn) (s : ParserState)
  | fuel

/-- `MetaphorParser._record_syntax_error` (lines 236-241): append an
error built from the token's position data. -/
def record_syntax_error (s : ParserState) (token : Token) (message : String) : ParserState :=
  { s with parse_errors := s.parse_errors ++
      [⟨message, token.filename, token.line, token.column, token.input⟩] }

/-- `MetaphorParser._find_file_path`'s search-path loop (lines 249-253):
first joined path that exists wins. -/
def find_in_search_paths (env : Env) : List String → String → Option String
  | [], _ => none
  | p :: ps, filename =>
    let try_name := os_path_join p filename
    if env.pathExists try_name then some try_name
    else find_in_search_paths env ps filename

/-- `MetaphorParser._find_file_path` (lines 243-255): accept the filename
as-is if it exists; otherwise, for non-absolute filenames, try each
search path in order; otherwise raise `FileNotFoundError`. -/
def find_file_path (env : Env) (search_paths : List String) (filename : String) :
    Except String String :=
  if env.pathExists filename then .ok filename
  else if ¬ os_path_isabs filename then
    match find_in_search_paths env search_paths filename with
    | some try_name => .ok try_name
    | none => .error ("File not found: " ++ filename)
  else .error ("File not found: " ++ filename)

/-- `MetaphorParser._read_file` (lines 257-269): read the file, mapping
each OS failure to a distinct `FileNotFoundError` message. -/
def read_file (env : Env) (filename : String) : Except String String :=
  match env.openRead filename with
  | .ok content => .ok content
  | .error .notFound => .error ("File not found: " ++ filename)
  | .error .permission => .error ("You do not have permission to access: " ++ filename)
  | .error .isADirectory => .error ("Is a directory: " ++ filename)
  | .error (.other msg) => .error ("OS error: " ++ msg)

/-- `MetaphorParser._check_file_not_loaded` (lines 271-277): canonicalise
the filename, raise `MetaphorParserFileAlreadyUsedError` (with
`self.current_token`) if it has been seen, otherwise record it. -/
def check_file_not_loaded (env : Env) (s : ParserState) (filename : String) : PR Unit :=
  let canonical_filename := env.realpath filename
  if canonical_filename ∈ s.previously_seen_files then
    .exn (.fileAlreadyUsed filename s.current_token) s
  else
    .ok () { s with previously_seen_files := canonical_filename :: s.previously_seen_files }

/-- The `for file in files` loop of `_parse_embed` (lines 408-410): read
each matched file (a read failure raises out of the loop) and push an
embed lexer for it; after the loop the last matched file is on top of the
stack. -/
def embed_files (env : Env) : ParserState → List String → PR Unit
  | s, [] => .ok () s
  | s, file :: rest =>
    match read_file env file with
    | .error msg => .exn (.fileNotFound msg) s
    | .ok input_text =>
      embed_files env
        { s with lexers := EmbedLexer env input_text file :: s.lexers } rest

mutual

/-- `MetaphorParser.get_next_token` (lines 218-234): while lexers remain,
pull from the top one, set `current_token`, intercept `INCLUDE` / `EMBED`
by running the corresponding expansion and looping, pop an exhausted
lexer on `END_OF_FILE` and loop, return any other token; with an empty
stack synthesize `Token(END_OF_FILE, "", "", "", 0, 0)` (without touching
`current_token`). -/
def get_next_token (env : Env) : Nat → ParserState → PR Token
  | 0, _ => .fuel
  | fuel + 1, s =>
    match s.lexers with
    | [] => .ok ⟨.END_OF_FILE, "", "", "", 0, 0⟩ s
    | lexer :: rest =>
      let (token, lexer') := lexer.next
      let s1 := { s with lexers := lexer' :: rest, current_token := some token }
      match token.type with
      | .INCLUDE =>
        match parse_include env fuel s1 with
        | .ok _ s2 => get_next_token env fuel s2
        | .exn e s2 => .exn e s2
        | .fuel => .fuel
      | .EMBED =>
        match parse_embed env fuel s1 with
        | .ok _ s2 => get_next_token env fuel s2
        | .exn e s2 => .exn e s2
        | .fuel => .fuel
      | .END_OF_FILE => get_next_token env fuel { s1 with lexers := rest }
      | _ => .ok token s1

/-- `MetaphorParser._parse_include` (lines 378-389): fetch the filename
token (a non-`KEYWORD_TEXT` records an error and returns), check the
file has not been loaded, resolve it, read it and push a structural lexer
for it. -/
def parse_include (env : Env) : Nat → ParserState → PR Unit
  | 0, _ => .fuel
  | fuel + 1, s =>
    match get_next_token env fuel s with
    | .fuel => .fuel
    | .exn e s' => .exn e s'
    | .ok token_next s' =>
      if token_next.type ≠ TokenType.KEYWORD_TEXT then
        .ok () (record_syntax_error s' token_next "Expected file name for 'Include'")
      else
        let filename := token_next.value
        match check_file_not_loaded env s' filename with
        | .fuel => .fuel
        | .exn e s2 => .exn e s2
        | .ok _ s2 =>
          match find_file_path env s2.search_paths filename with
          | .error msg => .exn (.fileNotFound msg) s2
          | .ok try_file =>
            match read_file env try_file with
            | .error msg => .exn (.fileNotFound msg) s2
            | .ok input_text =>
              .ok () { s2 with lexers := MetaphorLexer env input_text try_file :: s2.lexers }

/-- `MetaphorParser._parse_embed` (lines 391-410): fetch the pattern
token (a non-`KEYWORD_TEXT` records an error and returns), glob it
(recursively when the pattern contains a literal `**/`), record an error
on zero matches, otherwise push one embed lexer per matched file in
match-enumeration order. -/
def parse_embed (env : Env) : Nat → ParserState → PR Unit
  | 0, _ => .fuel
  | fuel + 1, s =>
    match get_next_token env fuel s with
    | .fuel => .fuel
    | .exn e s' => .exn e s'
    | .ok token_next s' =>
      if token_next.type ≠ TokenType.KEYWORD_TEXT then
        .ok () (record_syntax_error s' token_next
          "Expected file name or wildcard match for 'Embed'")
      else
        let pat := token_next.value
        let recurse : Bool := decide ("**/".toList <:+: pat.toList)
        match env.glob pat recurse with
        | [] => .ok () (record_syntax_error s' token_next
            (pat ++ " does not match any files for 'Embed'"))
        | f :: fs => embed_files env s' (f :: fs)

end

/-- `MetaphorParser._parse_text` (lines 279-281). -/
def parse_text (token : Token) : MetaphorAST := .node .TEXT token.value []

/-- Body loop of `_parse_action` (lines 301-311): accept `TEXT` children,
stop on `OUTDENT` / `END_OF_FILE`, record any other token as an error and
continue. -/
def parse_action_body (env : Env) : Nat → ParserState → MetaphorAST → PR MetaphorAST
  | 0, _, _ => .fuel
  | fuel + 1, s, action_node =>
    match get_next_token env fuel s with
    | .fuel => .fuel
    | .exn e s' => .exn e s'
    | .ok token s' =>
      match token.type with
      | .TEXT => parse_action_body env fuel s' (action_node.attachChild (parse_text token))
      | .OUTDENT => .ok action_node s'
      | .END_OF_FILE => .ok action_node s'
      | _ => parse_action_body env fuel
          (record_syntax_error s' token
            ("Unexpected token: " ++ token.value ++ " in 'Action' block"))
          action_node

/-- `MetaphorParser._parse_action` (lines 283-311): optional
`KEYWORD_TEXT` label, mandatory `INDENT` (missing ones are recorded
errors, parsing continues), then the body loop. -/
def parse_action (env : Env) : Nat → ParserState → Token → PR MetaphorAST
  | 0, _, _ => .fuel
  | fuel + 1, s, token =>
    match get_next_token env fuel s with
    | .fuel => .fuel
    | .exn e s' => .exn e s'
    | .ok init_token s' =>
      if init_token.type = TokenType.KEYWORD_TEXT then
        match get_next_token env fuel s' with
        | .fuel => .fuel
        | .exn e s2 => .exn e s2
        | .ok indent_token s2 =>
          let s3 := if indent_token.type ≠ TokenType.INDENT then
              record_syntax_error s2 token
                "Expected indent after keyword description for 'Action' block"
            else s2
          parse_action_body env fuel s3 (.node .ACTION init_token.value [])
      else
        let s2 := if init_token.type ≠ TokenType.INDENT then
            record_syntax_error s' token "Expected description or indent for 'Action' block"
          else s'
        parse_action_body env fuel s2 (.node .ACTION "" [])

/-- Body loop of `_parse_role` (lines 366-376), same shape as the action
body. -/
def parse_role_body (env : Env) : Nat → ParserState → MetaphorAST → PR MetaphorAST
  | 0, _, _ => .fuel
  | fuel + 1, s, role_node =>
    match get_next_token env fuel s with
    | .fuel => .fuel
    | .exn e s' => .exn e s'
    | .ok token s' =>
      match token.type with
      | .TEXT => parse_role_body env fuel s' (role_node.attachChild (parse_text token))
      | .OUTDENT => .ok role_node s'
      | .END_OF_FILE => .ok role_node s'
      | _ => parse_role_body env fuel
          (record_syntax_error s' token
            ("Unexpected token: " ++ token.value ++ " in 'Role' block"))
          role_node

/-- `MetaphorParser._parse_role` (lines 348-376). -/
def parse_role (env : Env) : Nat → ParserState → Token → PR MetaphorAST
  | 0, _, _ => .fuel
  | fuel + 1, s, token =>
    match get_next_token env fuel s with
    | .fuel => .fuel
    | .exn e s' => .exn e s'
    | .ok init_token s' =>
      if init_token.type = TokenType.KEYWORD_TEXT then
        match get_next_token env fuel s' with
        | .fuel => .fuel
        | .exn e s2 => .exn e s2
        | .ok indent_token s2 =>
          let s3 := if indent_token.type ≠ TokenType.INDENT then
              record_syntax_error s2 token
                "Expected indent after keyword description for 'Role' block"
            else s2
          parse_role_body env fuel s3 (.node .ROLE init_token.value [])
      else
        let s2 := if init_token.type ≠ TokenType.INDENT then
            record_syntax_error s' token "Expected description or indent for 'Role' block"
          else s'
        parse_role_body env fuel s2 (.node .ROLE "" [])

mutual

/-- Body loop of `_parse_context` (lines 333-346): `TEXT` after a nested
`CONTEXT` child records "Text must come first in a 'Context' block" but
the text is still attached; nested `CONTEXT` recurses and flips the
seen marker; `OUTDENT` / `END_OF_FILE` return the node; anything else is
a recorded error. -/
def parse_context_body (env : Env) :
    Nat → ParserState → MetaphorAST → TokenType → PR MetaphorAST
  | 0, _, _, _ => .fuel
  | fuel + 1, s, context_node, seen_token_type =>
    match get_next_token env fuel s with
    | .fuel => .fuel
    | .exn e s' => .exn e s'
    | .ok token s' =>
      match token.type with
      | .TEXT =>
        let s2 := if seen_token_type ≠ TokenType.NONE then
            record_syntax_error s' token "Text must come first in a 'Context' block"
          else s'
        parse_context_body env fuel s2 (context_node.attachChild (parse_text token))
          seen_token_type
      | .CONTEXT =>
        match parse_context env fuel s' token with
        | .fuel => .fuel
        | .exn e s2 => .exn e s2
        | .ok child s2 =>
          parse_context_body env fuel s2 (context_node.attachChild child) TokenType.CONTEXT
      | .OUTDENT => .ok context_node s'
      | .END_OF_FILE => .ok context_node s'
      | _ => parse_context_body env fuel
          (record_syntax_error s' token
            ("Unexpected token: " ++ token.value ++ " in 'Context' block"))
          context_node seen_token_type

/-- `MetaphorParser._parse_context` (lines 313-346). -/
def parse_context (env : Env) : Nat → ParserState → Token → PR MetaphorAST
  | 0, _, _ => .fuel
  | fuel + 1, s, token =>
    match get_next_token env fuel s with
    | .fuel => .fuel
    | .exn e s' => .exn e s'
    | .ok init_token s' =>
      if init_token.type = TokenType.KEYWORD_TEXT then
        match get_next_token env fuel s' with
        | .fuel => .fuel
        | .exn e s2 => .exn e s2
        | .ok indent_token s2 =>
          let s3 := if indent_token.type ≠ TokenType.INDENT then
              record_syntax_error s2 token
                "Expected indent after keyword description for 'Context' block"
            else s2
          parse_context_body env fuel s3 (.node .CONTEXT init_token.value []) TokenType.NONE
      else
        let s2 := if init_token.type ≠ TokenType.INDENT then
            record_syntax_error s' token "Expected description or indent for 'Context' block"
          else s'
        parse_context_body env fuel s2 (.node .CONTEXT "" []) TokenType.NONE

end

/-- The static preamble string list of `MetaphorParser._generate_preamble`
(lines 76-117), verbatim.  Note that in the Python source the entry
`"    ` fence"` is directly followed by `""` with no comma, so the two
literals concatenate into a single `"    ` fence"` element; the list
therefore has 39 entries ending in one `""`. -/
def preamble_texts : List String :=
  ["The following is written in a language called Metaphor.",
   "",
   "Metaphor has the structure of a document tree with branches and leaves being prefixed",
   "by the keywords \"Role:\", \"Context:\" or \"Action:\".  Each of these indicates the",
   "start of a new block of information.",
   "",
   "Blocks have an optional section name that will immediately follow them on the same line.",
   "If this is missing then the section name is not defined.",
   "",
   "After a keyword line there may be one or more lines of text that will describe the purpose",
   "of that block.  A block may also include one or more optional child blocks inside them and",
   "that further clarify their parent block.",
   "",
   "The indentation of the blocks indicates where in the tree the pieces appear.  For example a",
   "\"Context:\" indented by 8 spaces is a child of the context above it that is indented by 4",
   "spaces.  One indented 12 spaces would be a child of the block above it that is indented by",
   "8 spaces.",
   "",
   "If you are presented with code or document fragments inside a block delimited by 3",
   "backticks then please pay close attention to the indentation level of the opening set of",
   "backticks.  Please remove this amount of whitespace from the start of each line of the",
   "enclosed text.  In the following example, even though \"text line 1\" is indented by",
   "4 spaces, you should remove these 4 spaces because the backticks are also indented by",
   "4 spaces.  You should also remove 4 spaces from \"text line 2\" because of this",
   "backtick indentation, but leave the remaining 2 spaces:",
   "    ```plaintext",
   "    text line 1",
   "      text line 2",
   "    ```",
   "If a \"Role:\" block exists then this is the role you should fulfil.",
   "",
   "\"Context:\" blocks provide context necessary to understand what you will be asked to do.",
   "",
   "An \"Action:\" block describes the task I would like you to do.",
   "",
   "When you process the actions please carefully ensure you do all of them accurately.  These",
   "need to fulfil all the details described in the \"Context:\".  Ensure you complete all the",
   "elements and do not include any placeholders.",
   ""]

/-- The preamble as the TEXT nodes `_generate_preamble` attaches. -/
def preamble_nodes : List MetaphorAST :=
  preamble_texts.map (fun text => .node .TEXT text [])

/-- `MetaphorParser._generate_preamble` (lines 75-120): attach one TEXT
child per preamble entry to the syntax tree in order. -/
def generate_preamble (s : ParserState) : ParserState :=
  let tree := preamble_texts.foldl
    (fun tree text => tree.attachChild (.node .TEXT text [])) s.syntax_tree
  { s with syntax_tree := tree }

/-- Result of the top-level token loop of `parse` (lines 148-174): the
returned tree, a directly raised `MetaphorParserError` (message plus its
error list), a propagating file exception, or fuel exhaustion. -/
inductive LoopResult where
  | ok (tree : MetaphorAST) (s : ParserState)
  | parserError (message : String) (errors : List MetaphorParserSyntaxError) (s : ParserState)
  | exn (e : ParseExn) (s : ParserState)
  | fuel

/-- The `while True` loop of `MetaphorParser.parse` (lines 148-174):
dispatch on the next token; a repeated section kind records
"'<Kind>' already defined" before the duplicate block is parsed and
attached anyway; `END_OF_FILE` raises `MetaphorParserError` when errors
have accumulated and otherwise returns the tree; any other token records
"Unexpected token: <value> at top level". -/
def parse_loop (env : Env) :
    Nat → ParserState → Bool → Bool → Bool → LoopResult
  | 0, _, _, _, _ => .fuel
  | fuel + 1, s, seen_action_tree, seen_context_tree, seen_role_tree =>
    match get_next_token env fuel s with
    | .fuel => .fuel
    | .exn e s' => .exn e s'
    | .ok token s' =>
      match token.type with
      | .ACTION =>
        let s2 := if seen_action_tree then
            record_syntax_error s' token "'Action' already defined"
          else s'
        match parse_action env fuel s2 token with
        | .fuel => .fuel
        | .exn e s3 => .exn e s3
        | .ok node s3 =>
          parse_loop env fuel
            { s3 with syntax_tree := s3.syntax_tree.attachChild node }
            true seen_context_tree seen_role_tree
      | .CONTEXT =>
        let s2 := if seen_context_tree then
            record_syntax_error s' token "'Context' already defined"
          else s'
        match parse_context env fuel s2 token with
        | .fuel => .fuel
        | .exn e s3 => .exn e s3
        | .ok node s3 =>
          parse_loop env fuel
            { s3 with syntax_tree := s3.syntax_tree.attachChild node }
            seen_action_tree true seen_role_tree
      | .ROLE =>
        let s2 := if seen_role_tree then
            record_syntax_error s' token "'Role' already defined"
          else s'
        match parse_role env fuel s2 token with
        | .fuel => .fuel
        | .exn e s3 => .exn e s3
        | .ok node s3 =>
          parse_loop env fuel
            { s3 with syntax_tree := s3.syntax_tree.attachChild node }
            seen_action_tree seen_context_tree true
      | .END_OF_FILE =>
        match s'.parse_errors with
        | [] => .ok s'.syntax_tree s'
        | e :: es => .parserError "parser error" (e :: es) s'
      | _ =>
        parse_loop env fuel
          (record_syntax_error s' token
            ("Unexpected token: " ++ token.value ++ " at top level"))
          seen_action_tree seen_context_tree seen_role_tree

/-- Outcome of a whole parse attempt: the completed tree, a raised
`MetaphorParserError` (carrying the message, the aggregated error list
and the parser's final state — the raised condition itself carries no
AST), an exception kind the entry point does not catch, or fuel
exhaustion of the model. -/
inductive ParseOutcome where
  | ok (tree : MetaphorAST) (s : ParserState)
  | error (message : String) (errors : List MetaphorParserSyntaxError) (s : ParserState)
  | uncaught (e : ParseExn) (s : ParserState)
  | fuel

/-- The token used when an exception handler dereferences an absent
`self.current_token`; in Python that line would raise `AttributeError`,
but every raise site inside the token walk has set `current_token`
first, so the branch is unreachable. -/
def none_current_token : Token := ⟨.NONE, "", "", "", 0, 0⟩

/-- Body of `MetaphorParser.parse` (lines 122-189) run from an explicit
starting state: store the search paths, push the structural lexer for the
input text, generate the preamble, run the token loop, and convert the
two caught exception kinds into `MetaphorParserError` after appending a
syntax error built from `self.current_token` (for `FileNotFoundError`)
or the exception's stored token (for the already-used error). -/
def parse_core (env : Env) (fuel : Nat) (s : ParserState)
    (input_text : String) (filename : String) (search_paths : List String) : ParseOutcome :=
  let s0 := { s with search_paths := search_paths,
                     lexers := MetaphorLexer env input_text filename :: s.lexers }
  let s1 := generate_preamble s0
  match parse_loop env fuel s1 false false false with
  | .ok tree s' => .ok tree s'
  | .parserError msg errs s' => .error msg errs s'
  | .exn (.fileNotFound msg) s' =>
    let err_token := s'.current_token.getD none_current_token
    let errs := s'.parse_errors ++
      [⟨msg, err_token.filename, err_token.line, err_token.column, err_token.input⟩]
    .error "parser error" errs { s' with parse_errors := errs }
  | .exn (.fileAlreadyUsed fn tok) s' =>
    let err_token := tok.getD none_current_token
    let errs := s'.parse_errors ++
      [⟨"The file '" ++ fn ++ "' has already been used",
        err_token.filename, err_token.line, err_token.column, err_token.input⟩]
    .error "parser error" errs { s' with parse_errors := errs }
  | .fuel => .fuel

/-- `MetaphorParser.parse` on a fresh parser (the documented lifecycle:
one parser instance per top-level parse invocation). -/
def parse (env : Env) (fuel : Nat)
    (input_text : String) (filename : String) (search_paths : List String) : ParseOutcome :=
  parse_core env fuel MetaphorParser.init input_text filename search_paths

/-- `MetaphorParser.parse_file` (lines 191-216) on a fresh parser: check
the file is not already loaded (never true on a fresh parser, and an
escape of `MetaphorParserFileAlreadyUsedError` here would be uncaught),
read it — a read failure is wrapped as `MetaphorParserError` with a
placeholder syntax error `("", 0, 0, "")` — and run `parse` on the
content.  The final `except MetaphorParserError` arm re-raises with the
same message and the same `self.parse_errors` list, which changes
nothing observable. -/
def parse_file (env : Env) (fuel : Nat)
    (filename : String) (search_paths : List String) : ParseOutcome :=
  match check_file_not_loaded env MetaphorParser.init filename with
  | .fuel => .fuel
  | .exn e s1 => .uncaught e s1
  | .ok _ s1 =>
    match read_file env filename with
    | .error msg =>
      let errs := s1.parse_errors ++ [⟨msg, "", 0, 0, ""⟩]
      .error "parser error" errs { s1 with parse_errors := errs }
    | .ok input_text => parse_core env fuel s1 input_text filename search_paths

/-- The message and error list of a raised `MetaphorParserError`, when
the outcome is one. -/
def ParseOutcome.raised : ParseOutcome → Option (String × List MetaphorParserSyntaxError)
  | .error msg errs _ => some (msg, errs)
  | _ => none

/-- The returned tree of a successful parse, when the outcome is one. -/
def ParseOutcome.tree : ParseOutcome → Option MetaphorAST
  | .ok tree _ => some tree
  | _ => none

/-- The parser's final state, when the parse ran to a return or a raised
`MetaphorParserError`. -/
def ParseOutcome.finalState : ParseOutcome → Option ParserState
  | .ok _ s => some s
  | .error _ _ s => some s
  | _ => none

/-! ## Object-level model of `metaphor_ast_node.py`

The AST-node claims are about Python object identity and aliasing (`the
children accessor never exposes the live backing sequence`), so here
nodes and lists are heap objects addressed by numeric ids.  A node's
record holds the id of its backing children list; the `children`
accessor allocates a fresh list id holding a copy of the contents.
Python's `in` and `list.remove` compare `MetaphorASTNode`s by object
identity (the class defines no `__eq__`), which is id equality here. -/

/-- The attribute record of one `MetaphorASTNode` object
(metaphor_ast_node.py lines 42-46): `_node_type`, `_value`, `_parent`
(a non-owning id or `None`) and the id of the `_children` list object. -/
structure NodeData where
  node_type : MetaphorASTNodeType
  value : String
  parent : Option Nat
  childrenRef : Nat
deriving DecidableEq

/-- The object heap: node records and list objects by id, with bump
allocators.  Ids at or above the allocation counters are unused. -/
structure Heap where
  nodes : Nat → NodeData
  lists : Nat → List Nat
  nextNode : Nat
  nextList : Nat

/-- Heap well-formedness: every allocated node's backing children list is
an allocated list. -/
def Heap.wf (h : Heap) : Prop :=
  ∀ i < h.nextNode, (h.nodes i).childrenRef < h.nextList

/-- Write a list object: the model of any in-place mutation (append,
remove, reorder, clear) a caller performs on a Python list it holds. -/
def Heap.setList (h : Heap) (r : Nat) (v : List Nat) : Heap :=
  { h with lists := fun j => if j = r then v else h.lists j }

/-- The contents of a node's live backing `_children` list. -/
def childrenContents (h : Heap) (n : Nat) : List Nat :=
  h.lists (h.nodes n).childrenRef

/-- `MetaphorASTNode.__init__` (lines 42-46): allocate a node whose
parent is `None` and whose backing `_children` is a fresh empty list. -/
def newNode (h : Heap) (node_type : MetaphorASTNodeType) (value : String) : Nat × Heap :=
  (h.nextNode,
   { nodes := fun j => if j = h.nextNode then
       ⟨node_type, value, none, h.nextList⟩ else h.nodes j,
     lists := fun j => if j = h.nextList then [] else h.lists j,
     nextNode := h.nextNode + 1,
     nextList := h.nextList + 1 })

/-- The `children` property (lines 80-83): `self._children.copy()` — a
fresh list object holding the same contents is allocated and its id
returned; the backing list id stays private. -/
def children (h : Heap) (n : Nat) : Nat × Heap :=
  (h.nextList,
   { h with lists := fun j => if j = h.nextList then childrenContents h n else h.lists j,
            nextList := h.nextList + 1 })

/-- `MetaphorASTNode.attach_child` (lines 48-51): `child.parent = self`;
`self._children.append(child)` (on the live backing list). -/
def attach_child (h : Heap) (p c : Nat) : Heap :=
  let h1 := { h with nodes := fun j => if j = c then
      { h.nodes j with parent := some p } else h.nodes j }
  { h1 with lists := fun j => if j = (h1.nodes p).childrenRef then
      h1.lists j ++ [c] else h1.lists j }

/-- Result of `detach_child`: the updated heap, or a raised `ValueError`
together with the heap as the exception leaves it. -/
inductive DetachResult where
  | ok (h : Heap)
  | valueError (msg : String) (h : Heap)

/-- Whether a `detach_child` call returned normally. -/
def DetachResult.isOk : DetachResult → Bool
  | .ok _ => true
  | .valueError _ _ => false

/-- The heap after a `detach_child` call (the objects survive a raised
`ValueError`). -/
def DetachResult.heapOf : DetachResult → Heap
  | .ok h => h
  | .valueError _ h => h

/-- The message of a raised `ValueError`, if any. -/
def DetachResult.errMsg : DetachResult → Option String
  | .ok _ => none
  | .valueError msg _ => some msg

/-- `MetaphorASTNode.detach_child` (lines 53-59): membership is tested
against `self.children` — the copying accessor, so a fresh snapshot list
is allocated either way; on failure raise `ValueError` (mutating
nothing), otherwise `self._children.remove(child)` (first occurrence,
identity comparison) and `child.parent = None`. -/
def detach_child (h : Heap) (p c : Nat) : DetachResult :=
  let (copyRef, h1) := children h p
  if c ∈ h1.lists copyRef then
    let h2 := { h1 with lists := fun j => if j = (h1.nodes p).childrenRef then
        (h1.lists j).erase c else h1.lists j }
    .ok { h2 with nodes := fun j => if j = c then
        { h2.nodes j with parent := none } else h2.nodes j }
  else
    .valueError "Node is not a child of this node" h1

/-! ## C8: the spec's wording of `_find_file_path`, for refinement -/

/-- The resolution rule exactly as the spec states it (C8): accept the
filename as-is if it exists; else join it with each configured
search-path directory in order, first existing joined path wins; else
fail with file-not-found.  (Unlike the source, no absolute-path guard
before the search-path loop.) -/
def findFilePathSpec (env : Env) (search_paths : List String) (filename : String) :
    Except String String :=
  if env.pathExists filename then .ok filename
  else
    match find_in_search_paths env search_paths filename with
    | some try_name => .ok try_name
    | none => .error ("File not found: " ++ filename)

/-! ## Well-formedness of positions (C4) -/

/-- A token with a 1-based position, as the spec requires of every
lexer-produced token. -/
def WfTok (t : Token) : Prop := 1 ≤ t.line ∧ 1 ≤ t.column

/-- The placeholder shape of the tokens the parser synthesizes itself
(`Token(END_OF_FILE, "", "", "", 0, 0)` and the exhausted-lexer token of
the lexer model). -/
def PhTok (t : Token) : Prop :=
  t.filename = "" ∧ t.line = 0 ∧ t.column = 0 ∧ t.input = ""

/-- A token the parser can ever hold: lexer-produced (well-formed) or
synthesized placeholder. -/
def TokOk (t : Token) : Prop := WfTok t ∨ PhTok t

/-- An error entry with a 1-based position, or the placeholder shape
(empty filename and raw line, line 0, column 0). -/
def ErrOk (e : MetaphorParserSyntaxError) : Prop :=
  (1 ≤ e.line ∧ 1 ≤ e.column) ∨
    (e.filename = "" ∧ e.line = 0 ∧ e.column = 0 ∧ e.input_text = "")

/-- Environment assumption for position claims: every token the
structural lexer produces carries a 1-based line and column (spec
section 3: `line: int≥1, column: int≥1`). -/
def WfEnv (env : Env) : Prop :=
  ∀ c f, ∀ t ∈ env.lex c f, WfTok t

/-- The parser-state invariant for position claims: all stacked lexer
tokens are well-formed, the current token is well-formed or placeholder,
and every accumulated error is well-formed or placeholder. -/
def StateInv (s : ParserState) : Prop :=
  (∀ l ∈ s.lexers, ∀ t ∈ l.tokens, WfTok t) ∧
  (∀ t, s.current_token = some t → TokOk t) ∧
  (∀ e ∈ s.parse_errors, ErrOk e)

/-- The token an exception can carry is well-formed or placeholder. -/
def ExnOk : ParseExn → Prop
  | .fileNotFound _ => True
  | .fileAlreadyUsed _ tok => ∀ t, tok = some t → TokOk t

/-! ## Concrete documents and environments used by the claims -/

/-- A document-only environment: an empty filesystem and a structural
lexer that always produces the given token sequence. -/
def mkDocEnv (toks : List Token) : Env :=
  ⟨fun _ => false, fun s => s, fun _ => .error .notFound, fun _ _ => [],
   fun _ _ => toks, fun _ => "plaintext"⟩

/-- An environment with an empty filesystem and an empty token stream. -/
def envEmptyFS : Env := mkDocEnv []

/-- Token stream of `"Role: Test\n    Description\n"` per spec 4.1. -/
def role_tokens : List Token :=
  [⟨.ROLE, "Role:", "Role: Test", "t.m6r", 1, 1⟩,
   ⟨.KEYWORD_TEXT, "Test", "Role: Test", "t.m6r", 1, 7⟩,
   ⟨.INDENT, "", "    Description", "t.m6r", 2, 5⟩,
   ⟨.TEXT, "Description", "    Description", "t.m6r", 2, 5⟩,
   ⟨.OUTDENT, "", "", "t.m6r", 3, 1⟩,
   ⟨.END_OF_FILE, "", "", "t.m6r", 3, 1⟩]

/-- Token stream of a document with two `Action:` sections (labels and
body texts arbitrary), per spec 4.1. -/
def dup_action_tokens (l1 a l2 b : String) : List Token :=
  [⟨.ACTION, "Action:", "Action:", "doc.m6r", 1, 1⟩,
   ⟨.KEYWORD_TEXT, l1, "Action:", "doc.m6r", 1, 9⟩,
   ⟨.INDENT, "", "", "doc.m6r", 2, 5⟩,
   ⟨.TEXT, a, "", "doc.m6r", 2, 5⟩,
   ⟨.OUTDENT, "", "", "doc.m6r", 3, 1⟩,
   ⟨.ACTION, "Action:", "Action:", "doc.m6r", 3, 1⟩,
   ⟨.KEYWORD_TEXT, l2, "Action:", "doc.m6r", 3, 9⟩,
   ⟨.INDENT, "", "", "doc.m6r", 4, 5⟩,
   ⟨.TEXT, b, "", "doc.m6r", 4, 5⟩,
   ⟨.OUTDENT, "", "", "doc.m6r", 5, 1⟩,
   ⟨.END_OF_FILE, "", "", "doc.m6r", 5, 1⟩]

/-- Token stream of a `Context:` block containing TEXT, a nested
`Context:`, then two more TEXT lines (all values arbitrary). -/
def ctx_tokens (l0 t1 l1 u t2 t3 : String) : List Token :=
  [⟨.CONTEXT, "Context:", "", "c.m6r", 1, 1⟩,
   ⟨.KEYWORD_TEXT, l0, "", "c.m6r", 1, 10⟩,
   ⟨.INDENT, "", "", "c.m6r", 2, 5⟩,
   ⟨.TEXT, t1, "", "c.m6r", 2, 5⟩,
   ⟨.CONTEXT, "Context:", "", "c.m6r", 3, 5⟩,
   ⟨.KEYWORD_TEXT, l1, "", "c.m6r", 3, 14⟩,
   ⟨.INDENT, "", "", "c.m6r", 4, 9⟩,
   ⟨.TEXT, u, "", "c.m6r", 4, 9⟩,
   ⟨.OUTDENT, "", "", "c.m6r", 5, 5⟩,
   ⟨.TEXT, t2, "", "c.m6r", 5, 5⟩,
   ⟨.TEXT, t3, "", "c.m6r", 6, 5⟩,
   ⟨.OUTDENT, "", "", "c.m6r", 7, 1⟩,
   ⟨.END_OF_FILE, "", "", "c.m6r", 7, 1⟩]

/-- Token stream of an `Action:` block whose body is a single
`Embed: <pattern>` directive. -/
def embed_doc_tokens (pattern : String) : List Token :=
  [⟨.ACTION, "Action:", "Action: x", "main.m6r", 1, 1⟩,
   ⟨.KEYWORD_TEXT, "x", "Action: x", "main.m6r", 1, 9⟩,
   ⟨.INDENT, "", "", "main.m6r", 2, 5⟩,
   ⟨.EMBED, "Embed:", "", "main.m6r", 2, 5⟩,
   ⟨.KEYWORD_TEXT, pattern, "", "main.m6r", 2, 12⟩,
   ⟨.OUTDENT, "", "", "main.m6r", 3, 1⟩,
   ⟨.END_OF_FILE, "", "", "main.m6r", 3, 1⟩]

/-- Environment for the embed-order claim: the glob of any pattern
matches exactly the two files `f1` then `f2` (in that enumeration
order), every file reads successfully with content given by `content`,
and the main document is the embed document above. -/
def mkEmbedEnv (pattern f1 f2 : String) (content : String → String)
    (langOf : String → String) : Env :=
  ⟨fun _ => false, fun s => s, fun f => .ok (content f),
   fun _ _ => [f1, f2], fun _ _ => embed_doc_tokens pattern, langOf⟩

/-- The four TEXT nodes an embedded file contributes to the AST (the
embed lexer's token sequence minus its `END_OF_FILE`). -/
def embed_text_nodes (langOf : String → String) (f c : String) : List MetaphorAST :=
  [.node .TEXT ("File: " ++ f) [],
   .node .TEXT ("```" ++ langOf f) [],
   .node .TEXT c [],
   .node .TEXT "```" []]

/-! ## The include-cycle family (C2)

`cyc_file n i` (for `i < n`) is the `i`-th file of an include cycle of
length `n`: its content lexes to a single `Include:` directive naming
the next file around the cycle.  Filenames are `i+1` copies of `a`, so
they are pairwise distinct and `realpath` can be the identity.  The
top-level document is parsed as the last file's content, so the first
include pulls in file 0 and going around the cycle reaches file 0 a
second time. -/

/-- The `i`-th cycle filename: `i+1` copies of `a`. -/
def cyc_file (i : Nat) : String := String.mk (List.replicate (i + 1) 'a')

/-- The filename the file named `f` includes: the next one around a
cycle of length `n` (wrapping back to file 0). -/
def cyc_next (n : Nat) (f : String) : String :=
  if f.length = n then cyc_file 0 else cyc_file f.length

/-- The token stream of the cycle file named `f`: one `Include:`
directive for the next file around the cycle. -/
def cycle_tokens (n : Nat) (f : String) : List Token :=
  [⟨.INCLUDE, "Include:", "", f, 1, 1⟩,
   ⟨.KEYWORD_TEXT, cyc_next n f, "", f, 1, 10⟩]

/-- The cycle environment: every path exists, `realpath` is the
identity, every read succeeds, and each file's content lexes to its
include directive. -/
def cycleEnv (n : Nat) : Env :=
  ⟨fun _ => true, fun s => s, fun _ => .ok "", fun _ _ => [],
   fun _ f => cycle_tokens n f, fun _ => "plaintext"⟩

/-- The canonical paths recorded after the first `k` includes of a
cycle run: files `k-1` down to `0`, newest first. -/
def cyc_seen : Nat → List String
  | 0 => []
  | k + 1 => cyc_file k :: cyc_seen k

/-- Concrete instantiation for C9: a heap with one node whose backing
list is list 0; the accessor hands out fresh list 1, and overwriting it
with `[5]` leaves the node's children empty. -/
def heap_c9 : Heap :=
  ⟨fun _ => ⟨.ROOT, "", none, 0⟩, fun _ => [], 1, 1⟩

/-- Concrete heap for the C10 counterexample: node 0 is a ROOT whose
backing list 0 already holds children `[1, 2]`. -/
def heap_c10 : Heap :=
  ⟨fun j => if j = 0 then ⟨.ROOT, "", none, 0⟩
    else if j = 1 then ⟨.TEXT, "c", some 0, 1⟩
    else ⟨.TEXT, "d", some 0, 2⟩,
   fun j => if j = 0 then [1, 2] else [], 3, 3⟩

/-- Concrete heap for the C10 witness: node 0 (no children) and node 1. -/
def heap_c10w : Heap :=
  ⟨fun j => if j = 0 then ⟨.ROOT, "", none, 0⟩ else ⟨.TEXT, "c", none, 1⟩,
   fun _ => [], 2, 2⟩

/-- Values of a node's children, for order-sensitive statements. -/
def MetaphorAST.childValues (t : MetaphorAST) : List String :=
  t.children.map MetaphorAST.rootValue

/-- Concrete instantiation of the embed environment for the C3
counterexample: pattern `*.py` matches `a.py` (content `A`) then `b.py`
(content `B`). -/
def envEmbedCex : Env :=
  mkEmbedEnv "*.py" "a.py" "b.py" (fun f => if f = "a.py" then "A" else "B")
    (fun _ => "plaintext")

/-- The parser state a parser-internal result carries, if any. -/
def PR.finalS {α : Type} : PR α → Option ParserState
  | .ok _ s => some s
  | .exn _ s => some s
  | .fuel => none

/-- The parser state a loop result carries, if any. -/
def LoopResult.finalS : LoopResult → Option ParserState
  | .ok _ s => some s
  | .parserError _ _ s => some s
  | .exn _ s => some s
  | .fuel => none

/-- The success shape of the parser's tree: rooted at a ROOT node that
owns the fixed preamble TEXT nodes before anything else. -/
def RootShape (t : MetaphorAST) : Prop :=
  t.nodeType = .ROOT ∧ preamble_nodes <+: t.children

/-- The tree of a successful parse of `role_tokens`. -/
def role_tree : MetaphorAST :=
  .node .ROOT "" (preamble_nodes ++ [.node .ROLE "Test" [.node .TEXT "Description" []]])

/-- The final parser state of a successful parse of `role_tokens`. -/
def role_state : ParserState :=
  ⟨role_tree, [], [], [], [], some ⟨.END_OF_FILE, "", "", "t.m6r", 3, 1⟩⟩

/-- Invariant carried by a token-returning walk result: the state keeps
`StateInv` and any returned token / exception token is `TokOk`. -/
def PRInvTok : PR Token → Prop
  | .ok t s' => StateInv s' ∧ TokOk t
  | .exn e s' => StateInv s' ∧ ExnOk e
  | .fuel => True

/-- Invariant carried by a unit-returning walk result. -/
def PRInvUnit : PR Unit → Prop
  | .ok _ s' => StateInv s'
  | .exn e s' => StateInv s' ∧ ExnOk e
  | .fuel => True

/-- Invariant carried by a block-parser result. -/
def PRInvAst : PR MetaphorAST → Prop
  | .ok _ s' => StateInv s'
  | .exn e s' => StateInv s' ∧ ExnOk e
  | .fuel => True

/-- Invariant carried by a top-level loop result; a raised
`MetaphorParserError` carries exactly the state's accumulated list. -/
def LoopInv : LoopResult → Prop
  | .ok _ s' => StateInv s'
  | .parserError _ errs s' => StateInv s' ∧ errs = s'.parse_errors
  | .exn e s' => StateInv s' ∧ ExnOk e
  | .fuel => True

/-- Token stream of a document whose first line is not a keyword. -/
def bad_doc_tokens : List Token :=
  [⟨.TEXT, "oops", "oops", "b.m6r", 1, 1⟩,
   ⟨.END_OF_FILE, "", "", "b.m6r", 2, 1⟩]

/-- The final parser state of `parse` on `bad_doc_tokens`. -/
def bad_doc_state : ParserState :=
  ⟨.node .ROOT "" preamble_nodes,
   [⟨"Unexpected token: oops at top level", "b.m6r", 1, 1, "oops"⟩],
   [], [], [], some ⟨.END_OF_FILE, "", "", "b.m6r", 2, 1⟩⟩

/-! # Helper lemmas -/

/-- With an absolute filename that does not exist as-is, the search-path
loop never finds anything, because joining a directory with an absolute
path returns the absolute path unchanged. -/
lemma find_in_search_paths_abs_none (env : Env) (filename : String)
    (habs : os_path_isabs filename = true) (hex : env.pathExists filename = false) :
    ∀ search_paths, find_in_search_paths env search_paths filename = none := by
  intro sp
  induction sp with
  | nil => rfl
  | cons p ps ih =>
    have hj : os_path_join p filename = filename := by
      unfold os_path_join
      rw [habs]
      simp
    unfold find_in_search_paths
    simp only [hj, hex, Bool.false_eq_true, if_false]
    exact ih

/-! # The claims -/

/-- C8: for every Include filename, path resolution accepts the filename
as-is when it exists, otherwise joins it with each configured search-path
directory in order (first existing joined path wins), otherwise raises
the file-not-found condition.  `_find_file_path` skips the search-path
loop for absolute filenames, but since `os.path.join(dir, absolute)`
returns the absolute path unchanged, the loop could never succeed there,
so the source function coincides with the spec's resolution rule
(`findFilePathSpec`) on every input. -/
theorem find_file_path_follows_spec (env : Env) (search_paths : List String)
    (filename : String) :
    find_file_path env search_paths filename = findFilePathSpec env search_paths filename := by
  unfold find_file_path findFilePathSpec
  cases hex : env.pathExists filename with
  | true => simp
  | false =>
    cases habs : os_path_isabs filename with
    | false => simp [habs]
    | true =>
      simp only [Bool.false_eq_true, if_false, habs, not_true_eq_false]
      rw [find_in_search_paths_abs_none env filename habs hex search_paths]

/-- C9: the `children` accessor returns an independent snapshot of the
backing sequence, never the live sequence itself.  The returned list id
is distinct from the node's backing list id, so writing any new contents
to the returned list (the model of appending, removing or reordering it)
leaves the node's actual children and all of the node's attribute
records unchanged; moreover the accessor itself leaves every node record
and every allocated list unchanged, so only `attach_child` and
`detach_child` modify the tree. -/
theorem children_accessor_is_snapshot (h : Heap) (n : Nat)
    (hwf : h.wf) (hn : n < h.nextNode) :
    (children h n).1 ≠ (h.nodes n).childrenRef ∧
    (∀ v : List Nat,
      childrenContents (((children h n).2).setList (children h n).1 v) n =
        childrenContents h n ∧
      (((children h n).2).setList (children h n).1 v).nodes n = h.nodes n) ∧
    (∀ j, ((children h n).2).nodes j = h.nodes j) ∧
    (∀ i < h.nextList, ((children h n).2).lists i = h.lists i) := by
  have href : (h.nodes n).childrenRef < h.nextList := hwf n hn
  refine ⟨?_, ?_, ?_, ?_⟩
  · intro hcontra
    simp only [children] at hcontra
    omega
  · intro v
    constructor
    · simp only [children, Heap.setList, childrenContents]
      rw [if_neg (by omega), if_neg (by omega)]
    · simp only [children, Heap.setList]
  · intro j
    simp only [children]
  · intro i hi
    simp only [children]
    rw [if_neg (by omega)]

/-- Witness for C9 at the concrete heap `heap_c9`. -/
theorem children_accessor_is_snapshot_witness :
    (children heap_c9 0).1 ≠ (heap_c9.nodes 0).childrenRef ∧
    childrenContents (((children heap_c9 0).2).setList (children heap_c9 0).1 [5]) 0 =
      childrenContents heap_c9 0 := by
  have h := children_accessor_is_snapshot heap_c9 0 (fun i _ => Nat.zero_lt_one) (by decide)
  exact ⟨h.1, (h.2.1 [5]).1⟩

/-- Counterexample for C10 as stated: when `c` is *already* a child of
`p`, `attach_child(p, c)` followed by `detach_child(p, c)` does not
restore `p`'s children.  Starting from children `[1, 2]`, attaching node
1 gives `[1, 2, 1]` and detaching removes the *first* occurrence, ending
at `[2, 1]` — not the prior sequence `[1, 2]`. -/
theorem attach_then_detach_counterexample :
    (detach_child (attach_child heap_c10 0 1) 0 1).isOk = true ∧
    childrenContents ((detach_child (attach_child heap_c10 0 1) 0 1).heapOf) 0 = [2, 1] ∧
    childrenContents heap_c10 0 = [1, 2] ∧ ([2, 1] : List Nat) ≠ [1, 2] := by
  refine ⟨?_, ?_, ?_, ?_⟩ <;> decide

/-- Pointwise view of `attach_child` on node records. -/
lemma attach_child_nodes (h : Heap) (p c j : Nat) :
    (attach_child h p c).nodes j =
      if j = c then { h.nodes j with parent := some p } else h.nodes j := rfl

/-- `attach_child` never changes a node's backing list id. -/
lemma attach_child_ref (h : Heap) (p c j : Nat) :
    ((attach_child h p c).nodes j).childrenRef = (h.nodes j).childrenRef := by
  rw [attach_child_nodes]
  split <;> rfl

/-- Pointwise view of `attach_child` on list objects: the parent's
backing list gets the child appended, nothing else changes. -/
lemma attach_child_lists (h : Heap) (p c j : Nat) :
    (attach_child h p c).lists j =
      if j = (h.nodes p).childrenRef then h.lists j ++ [c] else h.lists j := by
  show (if j = ((attach_child h p c).nodes p).childrenRef
      then h.lists j ++ [c] else h.lists j) = _
  rw [attach_child_ref]

/-- `attach_child` allocates nothing. -/
lemma attach_child_counters (h : Heap) (p c : Nat) :
    (attach_child h p c).nextList = h.nextList ∧
    (attach_child h p c).nextNode = h.nextNode := ⟨rfl, rfl⟩

/-- `detach_child` when the child is present: remove the first occurrence
from the live backing list and clear the`parent`; a fresh snapshot list
was also allocated by the membership check. -/
lemma detach_child_ok (H : Heap) (p c : Nat) (hm : c ∈ childrenContents H p) :
    detach_child H p c = .ok
      { nodes := fun j => if j = c then { H.nodes j with parent := none } else H.nodes j,
        lists := fun j =>
          if j = (H.nodes p).childrenRef then
            (if j = H.nextList then childrenContents H p else H.lists j).erase c
          else if j = H.nextList then childrenContents H p else H.lists j,
        nextNode := H.nextNode,
        nextList := H.nextList + 1 } := by
  unfold detach_child
  simp only [children, childrenContents, if_true]
  rw [if_pos (show c ∈ H.lists (H.nodes p).childrenRef from hm)]

/-- `detach_child` when the child is absent: raise `ValueError`; the
only state change is the snapshot list the membership check allocated. -/
lemma detach_child_err (H : Heap) (p c : Nat) (hm : c ∉ childrenContents H p) :
    detach_child H p c = .valueError "Node is not a child of this node"
      { H with lists := fun j => if j = H.nextList then childrenContents H p else H.lists j,
               nextList := H.nextList + 1 } := by
  unfold detach_child
  simp only [children, childrenContents, if_true]
  rw [if_neg (show ¬ c ∈ H.lists (H.nodes p).childrenRef from hm)]

/-- C10 (amended): provided `c` is **not already a child** of `p`,
`attach_child(p, c)` followed by `detach_child(p, c)` restores `p`'s
children to their prior sequence and sets `c`'s parent to `None` (when
`c` was already a child, the detach removes the first occurrence and
leaves the re-appended one, as the counterexample shows); and
`detach_child(p, c)` raises `ValueError` exactly when `c` is not
currently a child of `p`, in which case `p`'s children and every node's
attributes are left unchanged. -/
theorem attach_then_detach_amended (h : Heap) (p c : Nat)
    (hwf : h.wf) (hp : p < h.nextNode) :
    (c ∉ childrenContents h p →
      (detach_child (attach_child h p c) p c).isOk = true ∧
      childrenContents ((detach_child (attach_child h p c) p c).heapOf) p =
        childrenContents h p ∧
      (((detach_child (attach_child h p c) p c).heapOf).nodes c).parent = none) ∧
    ((detach_child h p c).isOk = false ↔ c ∉ childrenContents h p) ∧
    ((detach_child h p c).isOk = false →
      (detach_child h p c).errMsg = some "Node is not a child of this node" ∧
      childrenContents ((detach_child h p c).heapOf) p = childrenContents h p ∧
      ((detach_child h p c).heapOf).nodes = h.nodes) := by
  have href : (h.nodes p).childrenRef < h.nextList := hwf p hp
  refine ⟨?_, ?_, ?_⟩
  · intro hnotmem
    have hca : childrenContents (attach_child h p c) p = childrenContents h p ++ [c] := by
      unfold childrenContents
      rw [attach_child_ref, attach_child_lists, if_pos rfl]
    have hmem : c ∈ childrenContents (attach_child h p c) p := by
      rw [hca]
      exact List.mem_append_right _ (List.mem_singleton.mpr rfl)
    rw [detach_child_ok (attach_child h p c) p c hmem]
    refine ⟨rfl, ?_, ?_⟩
    · unfold childrenContents DetachResult.heapOf
      have hjref :
          ((if p = c then { (attach_child h p c).nodes p with parent := none }
            else (attach_child h p c).nodes p) : NodeData).childrenRef =
            (h.nodes p).childrenRef := by
        split <;> rw [attach_child_ref]
      simp only [hjref]
      rw [if_pos (attach_child_ref h p c p).symm, if_neg (show
        ¬ (h.nodes p).childrenRef = (attach_child h p c).nextList from by
          rw [(attach_child_counters h p c).1]
          omega)]
      rw [attach_child_lists h p c ((h.nodes p).childrenRef), if_pos rfl]
      rw [List.erase_append_right _ (by simpa [childrenContents] using hnotmem)]
      simp
    · simp [DetachResult.heapOf]
  · by_cases hmc : c ∈ childrenContents h p
    · rw [detach_child_ok h p c hmc]
      simp [DetachResult.isOk, hmc]
    · rw [detach_child_err h p c hmc]
      simp [DetachResult.isOk, hmc]
  · intro hfalse
    by_cases hmc : c ∈ childrenContents h p
    · rw [detach_child_ok h p c hmc] at hfalse
      simp [DetachResult.isOk] at hfalse
    · rw [detach_child_err h p c hmc]
      refine ⟨rfl, ?_, rfl⟩
      show (if (h.nodes p).childrenRef = h.nextList
          then childrenContents h p else h.lists (h.nodes p).childrenRef) =
        childrenContents h p
      rw [if_neg (by omega)]
      rfl

/-- Witness for the amended C10 at the concrete heap `heap_c10w`:
attaching node 1 to node 0 and detaching it restores the empty child
list and clears the parent. -/
theorem attach_then_detach_amended_witness :
    (detach_child (attach_child heap_c10w 0 1) 0 1).isOk = true ∧
    childrenContents ((detach_child (attach_child heap_c10w 0 1) 0 1).heapOf) 0 = [] ∧
    (((detach_child (attach_child heap_c10w 0 1) 0 1).heapOf).nodes 1).parent = none := by
  have hwf : heap_c10w.wf := by
    intro i hi
    by_cases h0 : i = 0 <;> simp [heap_c10w, h0]
  have h := (attach_then_detach_amended heap_c10w 0 1 hwf (by decide)).1 (by decide)
  exact ⟨h.1, h.2.1.trans (by decide), h.2.2⟩

/-- C5: for a document declaring two `Action:` sections (with arbitrary
labels and body texts), `parse` records exactly the error
`"'Action' already defined"` at the second `Action` token — so the final
error list is non-empty and the parse raises `MetaphorParserError` — yet
parsing continued: the duplicate `Action` subtree is still built and
attached to the ROOT node alongside the first one. -/
theorem duplicate_action_recorded_and_attached (l1 a l2 b : String) :
    (parse (mkDocEnv (dup_action_tokens l1 a l2 b)) 60 "doc" "doc.m6r" []).raised =
      some ("parser error",
        [⟨"'Action' already defined", "doc.m6r", 3, 1, "Action:"⟩]) ∧
    ((parse (mkDocEnv (dup_action_tokens l1 a l2 b)) 60 "doc" "doc.m6r" []).finalState.map
      (fun s => s.syntax_tree.children)) =
      some (preamble_nodes ++
        [.node .ACTION l1 [.node .TEXT a []], .node .ACTION l2 [.node .TEXT b []]]) :=
  ⟨rfl, rfl⟩

/-- C6: in a `Context:` block containing TEXT, then a nested `Context:`,
then two further TEXT tokens, each trailing TEXT records the error
`"Text must come first in a 'Context' block"` exactly once (two
offending tokens, two errors, at their own positions), and each such
text is nevertheless still attached as a child of the Context node in
order. -/
theorem context_text_after_nested_context (l0 t1 l1 u t2 t3 : String) :
    (parse (mkDocEnv (ctx_tokens l0 t1 l1 u t2 t3)) 60 "doc" "c.m6r" []).raised =
      some ("parser error",
        [⟨"Text must come first in a 'Context' block", "c.m6r", 5, 5, ""⟩,
         ⟨"Text must come first in a 'Context' block", "c.m6r", 6, 5, ""⟩]) ∧
    ((parse (mkDocEnv (ctx_tokens l0 t1 l1 u t2 t3)) 60 "doc" "c.m6r" []).finalState.map
      (fun s => s.syntax_tree.children)) =
      some (preamble_nodes ++
        [.node .CONTEXT l0
          [.node .TEXT t1 [],
           .node .CONTEXT l1 [.node .TEXT u []],
           .node .TEXT t2 [],
           .node .TEXT t3 []]]) :=
  ⟨rfl, rfl⟩

/-- Counterexample for C3 as stated: with the pattern matching `a.py`
then `b.py` (in that enumeration order), the parsed AST contains the
embedded blocks with `b.py`'s content **first** — reverse
match-enumeration order, not forward order.  The second conjunct checks
the two orders are observably different. -/
theorem embed_order_counterexample :
    (parse envEmbedCex 60 "doc" "main.m6r" []).tree =
      some (.node .ROOT "" (preamble_nodes ++
        [.node .ACTION "x"
          (embed_text_nodes (fun _ => "plaintext") "b.py" "B" ++
           embed_text_nodes (fun _ => "plaintext") "a.py" "A")])) ∧
    (embed_text_nodes (fun _ => "plaintext") "b.py" "B" ++
        embed_text_nodes (fun _ => "plaintext") "a.py" "A").map MetaphorAST.rootValue ≠
      (embed_text_nodes (fun _ => "plaintext") "a.py" "A" ++
        embed_text_nodes (fun _ => "plaintext") "b.py" "B").map MetaphorAST.rootValue :=
  ⟨rfl, by decide⟩

/-- C3 (amended): for an Embed directive whose pattern matches two
files, one Embed lexer per matched file is pushed onto the lexer stack
in match-enumeration order (the `embed_files` loop conjunct: the second
match ends on top); and since the most-recently-pushed lexer is consumed
first, the files' content appears in the resulting token stream and AST
in **reverse** match-enumeration order, each file completing fully
before the next begins. -/
theorem embed_pushes_in_order_content_reversed (pattern f1 f2 : String)
    (content : String → String) (langOf : String → String) :
    (∀ s : ParserState,
      embed_files (mkEmbedEnv pattern f1 f2 content langOf) s [f1, f2] =
        .ok () { s with lexers := (
          EmbedLexer (mkEmbedEnv pattern f1 f2 content langOf) (content f2) f2 ::
          EmbedLexer (mkEmbedEnv pattern f1 f2 content langOf) (content f1) f1 ::
          s.lexers) }) ∧
    (parse (mkEmbedEnv pattern f1 f2 content langOf) 60 "doc" "main.m6r" []).tree =
      some (.node .ROOT "" (preamble_nodes ++
        [.node .ACTION "x"
          (embed_text_nodes langOf f2 (content f2) ++
           embed_text_nodes langOf f1 (content f1))])) :=
  ⟨fun _ => rfl, rfl⟩

/-- `_check_file_not_loaded` never touches the syntax tree. -/
lemma check_file_not_loaded_tree (env : Env) (s : ParserState) (filename : String) :
    ∀ s', (check_file_not_loaded env s filename).finalS = some s' →
      s'.syntax_tree = s.syntax_tree := by
  intro s' h
  simp only [check_file_not_loaded] at h
  split at h <;> simp only [PR.finalS, Option.some.injEq] at h <;> rw [← h]

/-- The embed push loop never touches the syntax tree. -/
lemma embed_files_preserves_tree (env : Env) :
    ∀ files s s', (embed_files env s files).finalS = some s' →
      s'.syntax_tree = s.syntax_tree := by
  intro files
  induction files with
  | nil =>
    intro s s' h
    simp only [embed_files, PR.finalS, Option.some.injEq] at h
    rw [← h]
  | cons f fs ih =>
    intro s s' h
    simp only [embed_files] at h
    split at h
    · simp only [PR.finalS, Option.some.injEq] at h
      rw [← h]
    · exact (ih _ _ h).trans rfl

/-- The token walk (`get_next_token`, `_parse_include`, `_parse_embed`)
never touches the syntax tree, whatever state it ends in. -/
lemma walk_preserves_tree (env : Env) : ∀ fuel,
    (∀ s s', (get_next_token env fuel s).finalS = some s' →
      s'.syntax_tree = s.syntax_tree) ∧
    (∀ s s', (parse_include env fuel s).finalS = some s' →
      s'.syntax_tree = s.syntax_tree) ∧
    (∀ s s', (parse_embed env fuel s).finalS = some s' →
      s'.syntax_tree = s.syntax_tree) := by
  intro fuel
  induction fuel with
  | zero =>
    refine ⟨?_, ?_, ?_⟩ <;> intro s s' h <;>
      simp [get_next_token, parse_include, parse_embed, PR.finalS] at h
  | succ fuel ih =>
    obtain ⟨ihg, ihi, ihe⟩ := ih
    refine ⟨?_, ?_, ?_⟩
    · intro s s' h
      simp only [get_next_token] at h
      split at h
      · simp only [PR.finalS, Option.some.injEq] at h
        rw [← h]
      · split at h
        · split at h
          · rename_i hpi
            have e1 := ihi _ _ (by rw [hpi]; rfl)
            rw [ihg _ _ h, e1]
          · rename_i hpi
            simp only [PR.finalS, Option.some.injEq] at h
            have e1 := ihi _ _ (by rw [hpi]; rfl)
            rw [← h, e1]
          · simp [PR.finalS] at h
        · split at h
          · rename_i hpe
            have e1 := ihe _ _ (by rw [hpe]; rfl)
            rw [ihg _ _ h, e1]
          · rename_i hpe
            simp only [PR.finalS, Option.some.injEq] at h
            have e1 := ihe _ _ (by rw [hpe]; rfl)
            rw [← h, e1]
          · simp [PR.finalS] at h
        · rw [ihg _ _ h]
        · simp only [PR.finalS, Option.some.injEq] at h
          rw [← h]
    · intro s s' h
      simp only [parse_include] at h
      split at h
      · simp [PR.finalS] at h
      · rename_i hg
        simp only [PR.finalS, Option.some.injEq] at h
        have e1 := ihg _ _ (by rw [hg]; rfl)
        rw [← h, e1]
      · rename_i hg
        have e1 := ihg _ _ (by rw [hg]; rfl)
        split at h
        · simp only [record_syntax_error, PR.finalS, Option.some.injEq] at h
          rw [← h]
          exact e1
        · split at h
          · simp [PR.finalS] at h
          · rename_i hc
            simp only [PR.finalS, Option.some.injEq] at h
            have e2 := check_file_not_loaded_tree env _ _ _ (by rw [hc]; rfl)
            rw [← h, e2, e1]
          · rename_i hc
            have e2 := check_file_not_loaded_tree env _ _ _ (by rw [hc]; rfl)
            split at h
            · simp only [PR.finalS, Option.some.injEq] at h
              rw [← h, e2, e1]
            · split at h
              · simp only [PR.finalS, Option.some.injEq] at h
                rw [← h, e2, e1]
              · simp only [PR.finalS, Option.some.injEq] at h
                rw [← h]
                exact e2.trans e1
    · intro s s' h
      simp only [parse_embed] at h
      split at h
      · simp [PR.finalS] at h
      · rename_i hg
        simp only [PR.finalS, Option.some.injEq] at h
        have e1 := ihg _ _ (by rw [hg]; rfl)
        rw [← h, e1]
      · rename_i hg
        have e1 := ihg _ _ (by rw [hg]; rfl)
        split at h
        · simp only [record_syntax_error, PR.finalS, Option.some.injEq] at h
          rw [← h]
          exact e1
        · split at h
          · simp only [record_syntax_error, PR.finalS, Option.some.injEq] at h
            rw [← h]
            exact e1
          · exact (embed_files_preserves_tree env _ _ _ h).trans e1

/-- Conditionally recording an error never touches the syntax tree. -/
lemma ite_record_tree (c : Prop) [Decidable c] (s : ParserState) (tok : Token) (msg : String) :
    (if c then record_syntax_error s tok msg else s).syntax_tree = s.syntax_tree := by
  split <;> rfl

/-- The block parsers build their nodes locally and never touch the
parser's syntax tree. -/
lemma blocks_preserve_tree (env : Env) : ∀ fuel,
    (∀ s node s', (parse_action_body env fuel s node).finalS = some s' →
      s'.syntax_tree = s.syntax_tree) ∧
    (∀ s tok s', (parse_action env fuel s tok).finalS = some s' →
      s'.syntax_tree = s.syntax_tree) ∧
    (∀ s node s', (parse_role_body env fuel s node).finalS = some s' →
      s'.syntax_tree = s.syntax_tree) ∧
    (∀ s tok s', (parse_role env fuel s tok).finalS = some s' →
      s'.syntax_tree = s.syntax_tree) ∧
    (∀ s node st s', (parse_context_body env fuel s node st).finalS = some s' →
      s'.syntax_tree = s.syntax_tree) ∧
    (∀ s tok s', (parse_context env fuel s tok).finalS = some s' →
      s'.syntax_tree = s.syntax_tree) := by
  intro fuel
  induction fuel with
  | zero =>
    refine ⟨?_, ?_, ?_, ?_, ?_, ?_⟩
    · intro s node s' h
      simp [parse_action_body, PR.finalS] at h
    · intro s tok s' h
      simp [parse_action, PR.finalS] at h
    · intro s node s' h
      simp [parse_role_body, PR.finalS] at h
    · intro s tok s' h
      simp [parse_role, PR.finalS] at h
    · intro s node st s' h
      simp [parse_context_body, PR.finalS] at h
    · intro s tok s' h
      simp [parse_context, PR.finalS] at h
  | succ fuel ih =>
    obtain ⟨ihab, iha, ihrb, ihr, ihcb, ihc⟩ := ih
    have wg := (walk_preserves_tree env fuel).1
    refine ⟨?_, ?_, ?_, ?_, ?_, ?_⟩
    · intro s node s' h
      simp only [parse_action_body] at h
      split at h
      · simp [PR.finalS] at h
      · rename_i hg
        simp only [PR.finalS, Option.some.injEq] at h
        rw [← h, wg _ _ (by rw [hg]; rfl)]
      · rename_i hg
        have e1 := wg _ _ (by rw [hg]; rfl)
        split at h
        · rw [ihab _ _ _ h, e1]
        · simp only [PR.finalS, Option.some.injEq] at h
          rw [← h, e1]
        · simp only [PR.finalS, Option.some.injEq] at h
          rw [← h, e1]
        · rw [ihab _ _ _ h]
          exact e1
    · intro s tok s' h
      simp only [parse_action] at h
      split at h
      · simp [PR.finalS] at h
      · rename_i hg
        simp only [PR.finalS, Option.some.injEq] at h
        rw [← h, wg _ _ (by rw [hg]; rfl)]
      · rename_i hg
        have e1 := wg _ _ (by rw [hg]; rfl)
        split at h
        · split at h
          · simp [PR.finalS] at h
          · rename_i hg2
            simp only [PR.finalS, Option.some.injEq] at h
            rw [← h, wg _ _ (by rw [hg2]; rfl), e1]
          · rename_i hg2
            have e2 := wg _ _ (by rw [hg2]; rfl)
            rw [ihab _ _ _ h, ite_record_tree, e2, e1]
        · rw [ihab _ _ _ h, ite_record_tree, e1]
    · intro s node s' h
      simp only [parse_role_body] at h
      split at h
      · simp [PR.finalS] at h
      · rename_i hg
        simp only [PR.finalS, Option.some.injEq] at h
        rw [← h, wg _ _ (by rw [hg]; rfl)]
      · rename_i hg
        have e1 := wg _ _ (by rw [hg]; rfl)
        split at h
        · rw [ihrb _ _ _ h, e1]
        · simp only [PR.finalS, Option.some.injEq] at h
          rw [← h, e1]
        · simp only [PR.finalS, Option.some.injEq] at h
          rw [← h, e1]
        · rw [ihrb _ _ _ h]
          exact e1
    · intro s tok s' h
      simp only [parse_role] at h
      split at h
      · simp [PR.finalS] at h
      · rename_i hg
        simp only [PR.finalS, Option.some.injEq] at h
        rw [← h, wg _ _ (by rw [hg]; rfl)]
      · rename_i hg
        have e1 := wg _ _ (by rw [hg]; rfl)
        split at h
        · split at h
          · simp [PR.finalS] at h
          · rename_i hg2
            simp only [PR.finalS, Option.some.injEq] at h
            rw [← h, wg _ _ (by rw [hg2]; rfl), e1]
          · rename_i hg2
            have e2 := wg _ _ (by rw [hg2]; rfl)
            rw [ihrb _ _ _ h, ite_record_tree, e2, e1]
        · rw [ihrb _ _ _ h, ite_record_tree, e1]
    · intro s node st s' h
      simp only [parse_context_body] at h
      split at h
      · simp [PR.finalS] at h
      · rename_i hg
        simp only [PR.finalS, Option.some.injEq] at h
        rw [← h, wg _ _ (by rw [hg]; rfl)]
      · rename_i hg
        have e1 := wg _ _ (by rw [hg]; rfl)
        split at h
        · rw [ihcb _ _ _ _ h, ite_record_tree, e1]
        · split at h
          · simp [PR.finalS] at h
          · rename_i hcx
            simp only [PR.finalS, Option.some.injEq] at h
            rw [← h, ihc _ _ _ (by rw [hcx]; rfl), e1]
          · rename_i hcx
            have e2 := ihc _ _ _ (by rw [hcx]; rfl)
            rw [ihcb _ _ _ _ h, e2, e1]
        · simp only [PR.finalS, Option.some.injEq] at h
          rw [← h, e1]
        · simp only [PR.finalS, Option.some.injEq] at h
          rw [← h, e1]
        · rw [ihcb _ _ _ _ h]
          exact e1
    · intro s tok s' h
      simp only [parse_context] at h
      split at h
      · simp [PR.finalS] at h
      · rename_i hg
        simp only [PR.finalS, Option.some.injEq] at h
        rw [← h, wg _ _ (by rw [hg]; rfl)]
      · rename_i hg
        have e1 := wg _ _ (by rw [hg]; rfl)
        split at h
        · split at h
          · simp [PR.finalS] at h
          · rename_i hg2
            simp only [PR.finalS, Option.some.injEq] at h
            rw [← h, wg _ _ (by rw [hg2]; rfl), e1]
          · rename_i hg2
            have e2 := wg _ _ (by rw [hg2]; rfl)
            rw [ihcb _ _ _ _ h, ite_record_tree, e2, e1]
        · rw [ihcb _ _ _ _ h, ite_record_tree, e1]

/-- Attaching another child to the root keeps the success shape. -/
lemma RootShape.attach {t : MetaphorAST} (c : MetaphorAST) (h : RootShape t) :
    RootShape (t.attachChild c) := by
  cases t with
  | node ty v cs =>
    exact ⟨h.1, h.2.trans (List.prefix_append _ _)⟩

/-- Case analysis of the top-level token loop: a normal return happens
only with an empty accumulated error list and returns the parser's own
tree (which keeps the ROOT/preamble shape), and a raised
`MetaphorParserError` carries exactly the non-empty accumulated error
list. -/
lemma parse_loop_cases (env : Env) : ∀ fuel s sa sc sr,
    RootShape s.syntax_tree →
    (∀ tree s', parse_loop env fuel s sa sc sr = .ok tree s' →
      tree = s'.syntax_tree ∧ s'.parse_errors = [] ∧ RootShape tree) ∧
    (∀ msg errs s', parse_loop env fuel s sa sc sr = .parserError msg errs s' →
      msg = "parser error" ∧ errs = s'.parse_errors ∧ errs ≠ []) := by
  intro fuel
  induction fuel with
  | zero =>
    intro s sa sc sr hs
    constructor
    · intro a b h
      simp [parse_loop] at h
    · intro a b c h
      simp [parse_loop] at h
  | succ fuel ih =>
    intro s sa sc sr hs
    have wg := (walk_preserves_tree env fuel).1
    have bk := blocks_preserve_tree env fuel
    constructor
    · intro tree s' h
      simp only [parse_loop] at h
      split at h
      · exact absurd h (by simp)
      · exact absurd h (by simp)
      · rename_i hg
        have e1 := wg _ _ (by rw [hg]; rfl)
        split at h
        · split at h
          · exact absurd h (by simp)
          · exact absurd h (by simp)
          · rename_i hb
            have e2 := bk.2.1 _ _ _ (by rw [hb]; rfl)
            refine (ih _ _ _ _ ?_).1 tree s' h
            show RootShape (ParserState.syntax_tree _)
            simp only []
            refine RootShape.attach _ ?_
            rw [e2, ite_record_tree, e1]
            exact hs
        · split at h
          · exact absurd h (by simp)
          · exact absurd h (by simp)
          · rename_i hb
            have e2 := bk.2.2.2.2.2 _ _ _ (by rw [hb]; rfl)
            refine (ih _ _ _ _ ?_).1 tree s' h
            show RootShape (ParserState.syntax_tree _)
            simp only []
            refine RootShape.attach _ ?_
            rw [e2, ite_record_tree, e1]
            exact hs
        · split at h
          · exact absurd h (by simp)
          · exact absurd h (by simp)
          · rename_i hb
            have e2 := bk.2.2.2.1 _ _ _ (by rw [hb]; rfl)
            refine (ih _ _ _ _ ?_).1 tree s' h
            show RootShape (ParserState.syntax_tree _)
            simp only []
            refine RootShape.attach _ ?_
            rw [e2, ite_record_tree, e1]
            exact hs
        · split at h
          · rename_i heq
            simp only [LoopResult.ok.injEq] at h
            obtain ⟨h1, h2⟩ := h
            subst h2
            refine ⟨h1.symm ▸ rfl, heq, ?_⟩
            rw [← h1]
            exact e1 ▸ hs
          · exact absurd h (by simp)
        · refine (ih _ _ _ _ ?_).1 tree s' h
          exact e1.symm ▸ hs
    · intro msg errs s' h
      simp only [parse_loop] at h
      split at h
      · exact absurd h (by simp)
      · exact absurd h (by simp)
      · rename_i hg
        have e1 := wg _ _ (by rw [hg]; rfl)
        split at h
        · split at h
          · exact absurd h (by simp)
          · exact absurd h (by simp)
          · rename_i hb
            have e2 := bk.2.1 _ _ _ (by rw [hb]; rfl)
            refine (ih _ _ _ _ ?_).2 msg errs s' h
            show RootShape (ParserState.syntax_tree _)
            simp only []
            refine RootShape.attach _ ?_
            rw [e2, ite_record_tree, e1]
            exact hs
        · split at h
          · exact absurd h (by simp)
          · exact absurd h (by simp)
          · rename_i hb
            have e2 := bk.2.2.2.2.2 _ _ _ (by rw [hb]; rfl)
            refine (ih _ _ _ _ ?_).2 msg errs s' h
            show RootShape (ParserState.syntax_tree _)
            simp only []
            refine RootShape.attach _ ?_
            rw [e2, ite_record_tree, e1]
            exact hs
        · split at h
          · exact absurd h (by simp)
          · exact absurd h (by simp)
          · rename_i hb
            have e2 := bk.2.2.2.1 _ _ _ (by rw [hb]; rfl)
            refine (ih _ _ _ _ ?_).2 msg errs s' h
            show RootShape (ParserState.syntax_tree _)
            simp only []
            refine RootShape.attach _ ?_
            rw [e2, ite_record_tree, e1]
            exact hs
        · split at h
          · exact absurd h (by simp)
          · rename_i heq
            simp only [LoopResult.parserError.injEq] at h
            obtain ⟨h1, h2, h3⟩ := h
            refine ⟨h1.symm, ?_, ?_⟩
            · rw [← h3, heq, h2]
            · rw [← h2]
              simp
        · refine (ih _ _ _ _ ?_).2 msg errs s' h
          exact e1.symm ▸ hs

/-- C1: `parse` returns the completed AST — rooted at a ROOT node whose
children start with the fixed preamble TEXT nodes — only with zero
accumulated syntax errors; in every raising outcome the wrapping
`MetaphorParserError` ("parser error") carries exactly the full
accumulated error list, which is non-empty, and no partial AST (the
outcome carries no tree and `parse` never ends in an uncaught
exception); conversely, whenever the token fetch delivers `END_OF_FILE`
at top level with zero accumulated errors, the loop returns the
completed AST. -/
theorem parse_success_iff (env : Env) (fuel : Nat) (input_text filename : String)
    (search_paths : List String) :
    (∀ tree s', parse env fuel input_text filename search_paths = .ok tree s' →
      s'.parse_errors = [] ∧ tree = s'.syntax_tree ∧
      tree.nodeType = .ROOT ∧ preamble_nodes <+: tree.children) ∧
    (∀ msg errs s', parse env fuel input_text filename search_paths = .error msg errs s' →
      msg = "parser error" ∧ errs = s'.parse_errors ∧ errs ≠ []) ∧
    (∀ e s', parse env fuel input_text filename search_paths ≠ .uncaught e s') ∧
    (∀ s sa sc sr t s', get_next_token env fuel s = .ok t s' →
      t.type = TokenType.END_OF_FILE → s'.parse_errors = [] →
      parse_loop env (fuel + 1) s sa sc sr = .ok s'.syntax_tree s') := by
  have hshape : RootShape (generate_preamble { MetaphorParser.init with
      search_paths := search_paths,
      lexers := [MetaphorLexer env input_text filename] }).syntax_tree :=
    ⟨rfl, [], by rw [List.append_nil]; rfl⟩
  refine ⟨?_, ?_, ?_, ?_⟩
  · intro tree s' h
    simp only [parse, parse_core] at h
    split at h
    · rename_i hl
      simp only [ParseOutcome.ok.injEq] at h
      obtain ⟨h1, h2⟩ := h
      subst h1
      subst h2
      have hc := (parse_loop_cases env fuel _ false false false hshape).1 _ _ hl
      exact ⟨hc.2.1, hc.1, hc.2.2.1, hc.2.2.2⟩
    · exact absurd h (by simp)
    · exact absurd h (by simp)
    · exact absurd h (by simp)
    · exact absurd h (by simp)
  · intro msg errs s' h
    simp only [parse, parse_core] at h
    split at h
    · exact absurd h (by simp)
    · rename_i hl
      simp only [ParseOutcome.error.injEq] at h
      obtain ⟨h1, h2, h3⟩ := h
      have hc := (parse_loop_cases env fuel _ false false false hshape).2 _ _ _ hl
      refine ⟨h1.symm.trans hc.1, ?_, ?_⟩
      · rw [← h2, ← h3]
        exact hc.2.1
      · rw [← h2]
        exact hc.2.2
    · rename_i hl
      simp only [ParseOutcome.error.injEq] at h
      obtain ⟨h1, h2, h3⟩ := h
      refine ⟨h1.symm, ?_, ?_⟩
      · rw [← h2, ← h3]
      · rw [← h2]
        simp
    · rename_i hl
      simp only [ParseOutcome.error.injEq] at h
      obtain ⟨h1, h2, h3⟩ := h
      refine ⟨h1.symm, ?_, ?_⟩
      · rw [← h2, ← h3]
      · rw [← h2]
        simp
    · exact absurd h (by simp)
  · intro e s'
    simp only [parse, parse_core]
    split <;> simp
  · intro s sa sc sr t s' hg hty herr
    simp only [parse_loop, hg, hty, herr]

/-- Witness for C1: the concrete one-Role document parses successfully
with the preamble-prefixed ROOT tree and no errors, and the top-level
loop on an empty stack with no errors returns the tree. -/
theorem parse_success_iff_witness :
    (role_state.parse_errors = [] ∧ role_tree = role_state.syntax_tree ∧
      role_tree.nodeType = .ROOT ∧ preamble_nodes <+: role_tree.children) ∧
    parse_loop envEmptyFS 2 MetaphorParser.init false false false =
      .ok MetaphorParser.init.syntax_tree MetaphorParser.init := by
  constructor
  · exact (parse_success_iff (mkDocEnv role_tokens) 30 "doc" "t.m6r" []).1 role_tree
      role_state rfl
  · exact (parse_success_iff envEmptyFS 1 "" "" []).2.2.2 MetaphorParser.init
      false false false ⟨.END_OF_FILE, "", "", "", 0, 0⟩ MetaphorParser.init rfl rfl rfl

/-- C7: the parser's token fetch never hands an `INCLUDE` or `EMBED`
token to block-parsing logic (whatever token a `get_next_token` call
returns, its kind is neither), pops a lexer from the stack whenever that
lexer yields `END_OF_FILE` and continues with the lexer beneath (the
recursive-unfolding conjunct), and with an empty lexer stack returns the
synthesized token `Token(END_OF_FILE, "", "", "", 0, 0)` leaving the
state untouched. -/
theorem get_next_token_shape (env : Env) (fuel : Nat) :
    (∀ s t s', get_next_token env fuel s = .ok t s' →
      t.type ≠ TokenType.INCLUDE ∧ t.type ≠ TokenType.EMBED) ∧
    (∀ s, s.lexers = [] →
      get_next_token env (fuel + 1) s = .ok ⟨.END_OF_FILE, "", "", "", 0, 0⟩ s) ∧
    (∀ s lexer rest t ts, s.lexers = lexer :: rest → lexer.tokens = t :: ts →
      t.type = TokenType.END_OF_FILE →
      get_next_token env (fuel + 1) s =
        get_next_token env fuel { s with lexers := rest, current_token := some t }) := by
  refine ⟨?_, ?_, ?_⟩
  · induction fuel with
    | zero =>
      intro s t s' h
      simp [get_next_token] at h
    | succ fuel ih =>
      intro s t s' h
      simp only [get_next_token] at h
      split at h
      · simp only [PR.ok.injEq] at h
        obtain ⟨h1, _⟩ := h
        subst h1
        exact ⟨by decide, by decide⟩
      · split at h
        · split at h
          · exact ih _ _ _ h
          · exact absurd h (by simp)
          · exact absurd h (by simp)
        · split at h
          · exact ih _ _ _ h
          · exact absurd h (by simp)
          · exact absurd h (by simp)
        · exact ih _ _ _ h
        · rename_i hinc hemb heof
          simp only [PR.ok.injEq] at h
          obtain ⟨h1, _⟩ := h
          subst h1
          exact ⟨hinc, hemb⟩
  · intro s hs
    simp [get_next_token, hs]
  · intro s lexer rest t ts hs hts hty
    simp only [get_next_token, hs, Lexer.next, hts, hty]

/-- Witness for C7: on the empty stack the fetch synthesizes the
placeholder `END_OF_FILE` token, whose kind is not `INCLUDE`. -/
theorem get_next_token_shape_witness :
    get_next_token envEmptyFS 1 MetaphorParser.init =
      .ok ⟨.END_OF_FILE, "", "", "", 0, 0⟩ MetaphorParser.init ∧
    ¬(⟨.END_OF_FILE, "", "", "", 0, 0⟩ : Token).type = TokenType.INCLUDE := by
  have h2 := (get_next_token_shape envEmptyFS 0).2.1 MetaphorParser.init rfl
  exact ⟨h2, ((get_next_token_shape envEmptyFS 1).1 _ _ _ h2).1⟩

/-- An error built from the fields of a `TokOk` token is `ErrOk`. -/
lemma errok_of_tokok (t : Token) (msg : String) (ht : TokOk t) :
    ErrOk ⟨msg, t.filename, t.line, t.column, t.input⟩ := by
  rcases ht with ⟨h1, h2⟩ | ⟨h1, h2, h3, h4⟩
  · exact Or.inl ⟨h1, h2⟩
  · exact Or.inr ⟨h1, h2, h3, h4⟩

/-- Recording an error at a `TokOk` token keeps the invariant. -/
lemma StateInv_record {s : ParserState} {t : Token} (msg : String)
    (hs : StateInv s) (ht : TokOk t) : StateInv (record_syntax_error s t msg) := by
  refine ⟨hs.1, hs.2.1, ?_⟩
  intro e he
  rcases List.mem_append.mp he with h | h
  · exact hs.2.2 e h
  · rw [List.mem_singleton.mp h]
    exact errok_of_tokok t msg ht

/-- Conditionally recording an error keeps the invariant. -/
lemma StateInv_ite_record {s : ParserState} {t : Token} {c : Prop} [Decidable c]
    {msg : String} (hs : StateInv s) (ht : TokOk t) :
    StateInv (if c then record_syntax_error s t msg else s) := by
  split
  · exact StateInv_record msg hs ht
  · exact hs

/-- A pull on a lexer yields either the exhaustion placeholder token
(leaving the lexer as is) or one of the lexer's own tokens, keeping only
its own tokens. -/
lemma lexer_next_cases (l : Lexer) :
    (PhTok (l.next).1 ∧ (l.next).2 = l) ∨
    ((l.next).1 ∈ l.tokens ∧ ∀ t ∈ (l.next).2.tokens, t ∈ l.tokens) := by
  cases hl : l.tokens with
  | nil =>
    left
    constructor
    · simp [Lexer.next, hl, PhTok]
    · simp [Lexer.next, hl]
  | cons t ts =>
    right
    constructor
    · simp [Lexer.next, hl]
    · intro u hu
      simp only [Lexer.next, hl] at hu
      exact hl ▸ List.mem_cons_of_mem _ hu

/-- Consuming one token from the top lexer and storing it as
`current_token` keeps the invariant, and that token is `TokOk`. -/
lemma StateInv_step {s : ParserState} {lexer : Lexer} {rest : List Lexer}
    (hs : StateInv s) (hl : s.lexers = lexer :: rest) :
    StateInv { s with
      lexers := (lexer.next).2 :: rest,
      current_token := some (lexer.next).1 } ∧ TokOk (lexer.next).1 := by
  have hlx : ∀ t ∈ lexer.tokens, WfTok t := hs.1 lexer (hl ▸ List.mem_cons_self _ _)
  have hrest : ∀ l ∈ rest, ∀ t ∈ l.tokens, WfTok t :=
    fun l hm => hs.1 l (hl ▸ List.mem_cons_of_mem _ hm)
  have hcur : TokOk (lexer.next).1 := by
    rcases lexer_next_cases lexer with ⟨hph, _⟩ | ⟨hmem, _⟩
    · exact Or.inr hph
    · exact Or.inl (hlx _ hmem)
  refine ⟨⟨?_, ?_, hs.2.2⟩, hcur⟩
  · intro l hm
    rcases List.mem_cons.mp hm with rfl | hm2
    · rcases lexer_next_cases lexer with ⟨_, hl'⟩ | ⟨_, hsub⟩
      · rw [hl']
        exact hlx
      · exact fun t ht => hlx t (hsub t ht)
    · exact hrest l hm2
  · intro t ht
    rw [Option.some.injEq] at ht
    exact ht ▸ hcur

/-- Dropping lexers keeps the invariant. -/
lemma StateInv_pop {s : ParserState} {rest : List Lexer}
    (hs : StateInv s) (hsub : ∀ l ∈ rest, l ∈ s.lexers) :
    ∀ (cur : Option Token), (∀ t, cur = some t → TokOk t) →
      StateInv { s with lexers := rest, current_token := cur } := by
  intro cur hcur
  exact ⟨fun l hm => hs.1 l (hsub l hm), hcur, hs.2.2⟩

/-- Pushing a lexer with well-formed tokens keeps the invariant. -/
lemma StateInv_push_lexer {s : ParserState} (l : Lexer)
    (hs : StateInv s) (hl : ∀ t ∈ l.tokens, WfTok t) :
    StateInv { s with lexers := l :: s.lexers } := by
  refine ⟨?_, hs.2.1, hs.2.2⟩
  intro lx hm
  rcases List.mem_cons.mp hm with rfl | hm2
  · exact hl
  · exact hs.1 lx hm2

/-- Recording a seen file keeps the invariant. -/
lemma StateInv_seen {s : ParserState} (f : String) (hs : StateInv s) :
    StateInv { s with previously_seen_files := f :: s.previously_seen_files } :=
  ⟨hs.1, hs.2.1, hs.2.2⟩

/-- Every token of the embed lexer's fixed five-token sequence carries a
1-based position. -/
lemma EmbedLexer_wf (env : Env) (input_text filename : String) :
    ∀ t ∈ (EmbedLexer env input_text filename).tokens, WfTok t := by
  intro t ht
  simp only [EmbedLexer, List.mem_cons, List.mem_singleton] at ht
  rcases ht with rfl | rfl | rfl | rfl | rfl | h
  · exact ⟨by norm_num, by norm_num⟩
  · exact ⟨by norm_num, by norm_num⟩
  · exact ⟨by norm_num, by norm_num⟩
  · exact ⟨by norm_num, by norm_num⟩
  · exact ⟨by norm_num, by norm_num⟩
  · exact absurd h (List.not_mem_nil t)

/-- The embed push loop preserves the state invariant. -/
lemma embed_files_inv (env : Env) :
    ∀ files s, StateInv s → PRInvUnit (embed_files env s files) := by
  intro files
  induction files with
  | nil =>
    intro s hs
    exact hs
  | cons f fs ih =>
    intro s hs
    simp only [embed_files]
    split
    · exact ⟨hs, trivial⟩
    · exact ih _ (StateInv_push_lexer _ hs (EmbedLexer_wf env _ _))

/-- The token walk preserves the state invariant: returned tokens are
lexer tokens or the placeholder, and raised exceptions carry `TokOk`
tokens (fuel induction over `get_next_token` / `_parse_include` /
`_parse_embed`). -/
lemma walk_inv (env : Env) (henv : WfEnv env) : ∀ fuel,
    (∀ s, StateInv s → PRInvTok (get_next_token env fuel s)) ∧
    (∀ s, StateInv s → PRInvUnit (parse_include env fuel s)) ∧
    (∀ s, StateInv s → PRInvUnit (parse_embed env fuel s)) := by
  intro fuel
  induction fuel with
  | zero =>
    refine ⟨?_, ?_, ?_⟩ <;> intro s hs <;>
      simp [get_next_token, parse_include, parse_embed, PRInvTok, PRInvUnit]
  | succ fuel ih =>
    obtain ⟨ihg, ihi, ihe⟩ := ih
    refine ⟨?_, ?_, ?_⟩
    · intro s hs
      simp only [get_next_token]
      split
      · exact ⟨hs, Or.inr ⟨rfl, rfl, rfl, rfl⟩⟩
      · rename_i lexer rest hl
        obtain ⟨hs1, htok⟩ := StateInv_step hs hl
        split
        · rename_i htype
          have hi := ihi _ hs1
          split
          · rename_i a s2 heq2
            rw [heq2] at hi
            exact ihg s2 hi
          · rename_i e s2 heq2
            rw [heq2] at hi
            exact hi
          · trivial
        · rename_i htype
          have hi := ihe _ hs1
          split
          · rename_i a s2 heq2
            rw [heq2] at hi
            exact ihg s2 hi
          · rename_i e s2 heq2
            rw [heq2] at hi
            exact hi
          · trivial
        · refine ihg _ (StateInv_pop hs ?_ _ ?_)
          · intro l hm
            exact hl ▸ List.mem_cons_of_mem _ hm
          · intro t ht
            rw [Option.some.injEq] at ht
            exact ht ▸ htok
        · exact ⟨hs1, htok⟩
    · intro s hs
      simp only [parse_include]
      split
      · trivial
      · rename_i e s' heq
        have hg := ihg s hs
        rw [heq] at hg
        exact hg
      · rename_i token_next s' heq
        have hg := ihg s hs
        rw [heq] at hg
        split
        · exact StateInv_record _ hg.1 hg.2
        · split
          · trivial
          · rename_i e s2 heq2
            simp only [check_file_not_loaded] at heq2
            split at heq2
            · simp only [PR.exn.injEq] at heq2
              obtain ⟨he, hst⟩ := heq2
              rw [← he, ← hst]
              exact ⟨hg.1, fun t ht => hg.1.2.1 t ht⟩
            · exact absurd heq2 (by simp)
          · rename_i a s2 heq2
            simp only [check_file_not_loaded] at heq2
            split at heq2
            · exact absurd heq2 (by simp)
            · simp only [PR.ok.injEq] at heq2
              have hs2 : StateInv s2 := by
                rw [← heq2.2]
                exact StateInv_seen _ hg.1
              split
              · exact ⟨hs2, trivial⟩
              · split
                · exact ⟨hs2, trivial⟩
                · exact StateInv_push_lexer _ hs2 (henv _ _)
    · intro s hs
      simp only [parse_embed]
      split
      · trivial
      · rename_i e s' heq
        have hg := ihg s hs
        rw [heq] at hg
        exact hg
      · rename_i token_next s' heq
        have hg := ihg s hs
        rw [heq] at hg
        split
        · exact StateInv_record _ hg.1 hg.2
        · split
          · exact StateInv_record _ hg.1 hg.2
          · exact embed_files_inv env _ _ hg.1

/-- The block parsers preserve the state invariant. -/
lemma blocks_inv (env : Env) (henv : WfEnv env) : ∀ fuel,
    (∀ s node, StateInv s → PRInvAst (parse_action_body env fuel s node)) ∧
    (∀ s tok, StateInv s → TokOk tok → PRInvAst (parse_action env fuel s tok)) ∧
    (∀ s node, StateInv s → PRInvAst (parse_role_body env fuel s node)) ∧
    (∀ s tok, StateInv s → TokOk tok → PRInvAst (parse_role env fuel s tok)) ∧
    (∀ s node st, StateInv s → PRInvAst (parse_context_body env fuel s node st)) ∧
    (∀ s tok, StateInv s → TokOk tok → PRInvAst (parse_context env fuel s tok)) := by
  intro fuel
  induction fuel with
  | zero =>
    refine ⟨?_, ?_, ?_, ?_, ?_, ?_⟩
    · intro s node hs
      simp [parse_action_body, PRInvAst]
    · intro s tok hs ht
      simp [parse_action, PRInvAst]
    · intro s node hs
      simp [parse_role_body, PRInvAst]
    · intro s tok hs ht
      simp [parse_role, PRInvAst]
    · intro s node st hs
      simp [parse_context_body, PRInvAst]
    · intro s tok hs ht
      simp [parse_context, PRInvAst]
  | succ fuel ih =>
    obtain ⟨ihab, iha, ihrb, ihr, ihcb, ihc⟩ := ih
    have wg := (walk_inv env henv fuel).1
    refine ⟨?_, ?_, ?_, ?_, ?_, ?_⟩
    · intro s node hs
      simp only [parse_action_body]
      split
      · trivial
      · rename_i e s' heq
        have hg := wg s hs
        rw [heq] at hg
        exact hg
      · rename_i token s' heq
        have hg := wg s hs
        rw [heq] at hg
        split
        · exact ihab _ _ hg.1
        · exact hg.1
        · exact hg.1
        · exact ihab _ _ (StateInv_record _ hg.1 hg.2)
    · intro s tok hs ht
      simp only [parse_action]
      split
      · trivial
      · rename_i e s' heq
        have hg := wg s hs
        rw [heq] at hg
        exact hg
      · rename_i init_token s' heq
        have hg := wg s hs
        rw [heq] at hg
        split
        · split
          · trivial
          · rename_i e s2 heq2
            have hg2 := wg s' hg.1
            rw [heq2] at hg2
            exact hg2
          · rename_i indent_token s2 heq2
            have hg2 := wg s' hg.1
            rw [heq2] at hg2
            exact ihab _ _ (StateInv_ite_record hg2.1 ht)
        · exact ihab _ _ (StateInv_ite_record hg.1 ht)
    · intro s node hs
      simp only [parse_role_body]
      split
      · trivial
      · rename_i e s' heq
        have hg := wg s hs
        rw [heq] at hg
        exact hg
      · rename_i token s' heq
        have hg := wg s hs
        rw [heq] at hg
        split
        · exact ihrb _ _ hg.1
        · exact hg.1
        · exact hg.1
        · exact ihrb _ _ (StateInv_record _ hg.1 hg.2)
    · intro s tok hs ht
      simp only [parse_role]
      split
      · trivial
      · rename_i e s' heq
        have hg := wg s hs
        rw [heq] at hg
        exact hg
      · rename_i init_token s' heq
        have hg := wg s hs
        rw [heq] at hg
        split
        · split
          · trivial
          · rename_i e s2 heq2
            have hg2 := wg s' hg.1
            rw [heq2] at hg2
            exact hg2
          · rename_i indent_token s2 heq2
            have hg2 := wg s' hg.1
            rw [heq2] at hg2
            exact ihrb _ _ (StateInv_ite_record hg2.1 ht)
        · exact ihrb _ _ (StateInv_ite_record hg.1 ht)
    · intro s node st hs
      simp only [parse_context_body]
      split
      · trivial
      · rename_i e s' heq
        have hg := wg s hs
        rw [heq] at hg
        exact hg
      · rename_i token s' heq
        have hg := wg s hs
        rw [heq] at hg
        split
        · exact ihcb _ _ _ (StateInv_ite_record hg.1 hg.2)
        · split
          · trivial
          · rename_i e s2 heq2
            have hc := ihc _ _ hg.1 hg.2
            rw [heq2] at hc
            exact hc
          · rename_i child s2 heq2
            have hc := ihc _ _ hg.1 hg.2
            rw [heq2] at hc
            exact ihcb _ _ _ hc
        · exact hg.1
        · exact hg.1
        · exact ihcb _ _ _ (StateInv_record _ hg.1 hg.2)
    · intro s tok hs ht
      simp only [parse_context]
      split
      · trivial
      · rename_i e s' heq
        have hg := wg s hs
        rw [heq] at hg
        exact hg
      · rename_i init_token s' heq
        have hg := wg s hs
        rw [heq] at hg
        split
        · split
          · trivial
          · rename_i e s2 heq2
            have hg2 := wg s' hg.1
            rw [heq2] at hg2
            exact hg2
          · rename_i indent_token s2 heq2
            have hg2 := wg s' hg.1
            rw [heq2] at hg2
            exact ihcb _ _ _ (StateInv_ite_record hg2.1 ht)
        · exact ihcb _ _ _ (StateInv_ite_record hg.1 ht)

/-- The top-level loop preserves the state invariant, and a raised
`MetaphorParserError` carries exactly the accumulated list. -/
lemma parse_loop_inv (env : Env) (henv : WfEnv env) : ∀ fuel s sa sc sr,
    StateInv s → LoopInv (parse_loop env fuel s sa sc sr) := by
  intro fuel
  induction fuel with
  | zero =>
    intro s sa sc sr hs
    trivial
  | succ fuel ih =>
    intro s sa sc sr hs
    have wg := (walk_inv env henv fuel).1
    have bk := blocks_inv env henv fuel
    simp only [parse_loop]
    split
    · trivial
    · rename_i e s' heq
      have hg := wg s hs
      rw [heq] at hg
      exact hg
    · rename_i token s' heq
      have hg := wg s hs
      rw [heq] at hg
      split
      · split
        · trivial
        · rename_i e s3 heq2
          have hss : StateInv (if sa then record_syntax_error s' token "'Action' already defined" else s') :=
            StateInv_ite_record hg.1 hg.2
          have hb := bk.2.1 _ _ hss hg.2
          rw [heq2] at hb
          exact hb
        · rename_i node s3 heq2
          have hss : StateInv (if sa then record_syntax_error s' token "'Action' already defined" else s') :=
            StateInv_ite_record hg.1 hg.2
          have hb := bk.2.1 _ _ hss hg.2
          rw [heq2] at hb
          exact ih _ _ _ _ hb
      · split
        · trivial
        · rename_i e s3 heq2
          have hss : StateInv (if sc then record_syntax_error s' token "'Context' already defined" else s') :=
            StateInv_ite_record hg.1 hg.2
          have hb := bk.2.2.2.2.2 _ _ hss hg.2
          rw [heq2] at hb
          exact hb
        · rename_i node s3 heq2
          have hss : StateInv (if sc then record_syntax_error s' token "'Context' already defined" else s') :=
            StateInv_ite_record hg.1 hg.2
          have hb := bk.2.2.2.2.2 _ _ hss hg.2
          rw [heq2] at hb
          exact ih _ _ _ _ hb
      · split
        · trivial
        · rename_i e s3 heq2
          have hss : StateInv (if sr then record_syntax_error s' token "'Role' already defined" else s') :=
            StateInv_ite_record hg.1 hg.2
          have hb := bk.2.2.2.1 _ _ hss hg.2
          rw [heq2] at hb
          exact hb
        · rename_i node s3 heq2
          have hss : StateInv (if sr then record_syntax_error s' token "'Role' already defined" else s') :=
            StateInv_ite_record hg.1 hg.2
          have hb := bk.2.2.2.1 _ _ hss hg.2
          rw [heq2] at hb
          exact ih _ _ _ _ hb
      · split
        · exact hg.1
        · rename_i heq2
          exact ⟨hg.1, heq2.symm⟩
      · exact ih _ _ _ _ (StateInv_record _ hg.1 hg.2)

/-- Every error in the list of a raised `MetaphorParserError` out of the
parse body is well-formed or placeholder-shaped, provided the lexer's
tokens all carry 1-based positions. -/
lemma parse_core_errors (env : Env) (henv : WfEnv env) (fuel : Nat) (s : ParserState)
    (input_text filename : String) (search_paths : List String) (hs : StateInv s) :
    ∀ msg errs s', parse_core env fuel s input_text filename search_paths = .error msg errs s' →
      ∀ e ∈ errs, ErrOk e := by
  intro msg errs s' h e he
  have hs0 : StateInv { s with
      search_paths := search_paths,
      lexers := MetaphorLexer env input_text filename :: s.lexers } := by
    refine ⟨?_, hs.2.1, hs.2.2⟩
    intro l hm
    rcases List.mem_cons.mp hm with rfl | hm2
    · exact henv input_text filename
    · exact hs.1 l hm2
  have hl := parse_loop_inv env henv fuel (generate_preamble { s with
      search_paths := search_paths,
      lexers := MetaphorLexer env input_text filename :: s.lexers }) false false false hs0
  simp only [parse, parse_core] at h
  split at h
  · exact absurd h (by simp)
  · rename_i hq
    rw [hq] at hl
    simp only [ParseOutcome.error.injEq] at h
    obtain ⟨_, h2, h3⟩ := h
    rw [← h2] at he
    rw [hl.2] at he
    exact hl.1.2.2 e he
  · rename_i m s2 hq
    rw [hq] at hl
    simp only [ParseOutcome.error.injEq] at h
    obtain ⟨_, h2, h3⟩ := h
    rw [← h2] at he
    rcases List.mem_append.mp he with hmem | hmem
    · exact hl.1.2.2 e hmem
    · rw [List.mem_singleton.mp hmem]
      refine errok_of_tokok _ _ ?_
      cases hc : s2.current_token with
      | none => exact Or.inr ⟨rfl, rfl, rfl, rfl⟩
      | some t =>
        simp only [hc, Option.getD_some]
        exact hl.1.2.1 t hc
  · rename_i fn tok s2 hq
    rw [hq] at hl
    simp only [ParseOutcome.error.injEq] at h
    obtain ⟨_, h2, h3⟩ := h
    rw [← h2] at he
    rcases List.mem_append.mp he with hmem | hmem
    · exact hl.1.2.2 e hmem
    · rw [List.mem_singleton.mp hmem]
      refine errok_of_tokok _ _ ?_
      cases hc : tok with
      | none => exact Or.inr ⟨rfl, rfl, rfl, rfl⟩
      | some t =>
        simp only [hc, Option.getD_some]
        exact hl.2 t hc
  · exact absurd h (by simp)

/-- C4 (amended): assuming every token the structural lexer produces
carries a 1-based line and column (the spec's token contract — the lexer
itself is not in src), every syntax error present in the aggregated list
at the end of any parse attempt via `parse` or `parse_file` (including
the file-not-found and file-already-used conditions) carries a filename,
line, column, raw source line and message whose position is the 1-based
position of its source token — except the errors recorded without any
source token, namely `parse_file`'s top-level file-not-found error and
errors recorded against the synthesized end-of-input token, which carry
the placeholder empty filename / line 0 / column 0 / empty source
line. -/
theorem error_list_positions (env : Env) (henv : WfEnv env) (fuel : Nat)
    (input_text filename filename2 : String) (search_paths : List String) :
    (∀ msg errs s', parse env fuel input_text filename search_paths = .error msg errs s' →
      ∀ e ∈ errs, ErrOk e) ∧
    (∀ msg errs s', parse_file env fuel filename2 search_paths = .error msg errs s' →
      ∀ e ∈ errs, ErrOk e) := by
  have hinit : StateInv MetaphorParser.init :=
    ⟨fun l hm => absurd hm (List.not_mem_nil l),
     fun t ht => by simp [MetaphorParser.init] at ht,
     fun e he => absurd he (List.not_mem_nil e)⟩
  constructor
  · intro msg errs s' h
    exact parse_core_errors env henv fuel MetaphorParser.init input_text filename
      search_paths hinit msg errs s' h
  · intro msg errs s' h
    simp only [parse_file] at h
    rw [show check_file_not_loaded env MetaphorParser.init filename2 =
        .ok () { MetaphorParser.init with
          previously_seen_files := [env.realpath filename2] } from by
      simp [check_file_not_loaded, MetaphorParser.init]] at h
    split at h
    · rename_i heq
      exact absurd heq (by simp)
    · rename_i heq
      exact absurd heq (by simp)
    · rename_i a s2 heq
      simp only [PR.ok.injEq] at heq
      obtain ⟨_, hs2⟩ := heq
      rw [← hs2] at h
      split at h
      · simp only [ParseOutcome.error.injEq] at h
        obtain ⟨_, h2, _⟩ := h
        intro e he
        rw [← h2] at he
        simp only [MetaphorParser.init, List.nil_append, List.mem_singleton] at he
        rw [he]
        exact Or.inr ⟨rfl, rfl, rfl, rfl⟩
      · exact parse_core_errors env henv fuel { MetaphorParser.init with
            previously_seen_files := [env.realpath filename2] } _ filename2
          search_paths hinit msg errs s' h

/-- The bad-document environment produces 1-based tokens. -/
lemma bad_doc_env_wf : WfEnv (mkDocEnv bad_doc_tokens) := by
  intro c f t ht
  simp only [mkDocEnv, bad_doc_tokens, List.mem_cons, List.mem_singleton,
    List.not_mem_nil, or_false] at ht
  rcases ht with rfl | rfl
  · exact ⟨le_refl 1, le_refl 1⟩
  · exact ⟨by norm_num, le_refl 1⟩

/-- Counterexample for C4 as stated: `parse_file` on a missing top-level
file ends with an aggregated list whose single error carries the empty
filename, line 0, column 0 and empty source line (metaphor_parser.py
line 212 appends `("", 0, 0, "")`), and line 0 is not a 1-based line
number. -/
theorem parse_file_placeholder_position_counterexample :
    (parse_file envEmptyFS 10 "missing.m6r" []).raised =
      some ("parser error", [⟨"File not found: missing.m6r", "", 0, 0, ""⟩]) ∧
    ¬ (1 ≤ (0 : Nat)) := ⟨rfl, by decide⟩

/-- Witness for the amended C4: the "Unexpected token" error produced by
the concrete bad document is well-formed. -/
theorem error_list_positions_witness :
    ErrOk ⟨"Unexpected token: oops at top level", "b.m6r", 1, 1, "oops"⟩ :=
  (error_list_positions (mkDocEnv bad_doc_tokens) bad_doc_env_wf 10 "doc" "b.m6r" "x" []).1
    "parser error" [⟨"Unexpected token: oops at top level", "b.m6r", 1, 1, "oops"⟩]
    bad_doc_state rfl
    ⟨"Unexpected token: oops at top level", "b.m6r", 1, 1, "oops"⟩
    (List.mem_singleton.mpr rfl)

/-- The `i`-th cycle filename has length `i + 1`. -/
lemma cyc_file_length (i : Nat) : (cyc_file i).length = i + 1 := by
  simp [cyc_file, String.length]

/-- Cycle filenames are pairwise distinct. -/
lemma cyc_file_inj {i j : Nat} (h : cyc_file i = cyc_file j) : i = j := by
  have := congrArg String.length h
  rw [cyc_file_length, cyc_file_length] at this
  omega

/-- A cycle file is among the first `k` recorded ones iff its index is
below `k`. -/
lemma mem_cyc_seen (j k : Nat) : cyc_file j ∈ cyc_seen k ↔ j < k := by
  induction k with
  | zero => simp [cyc_seen]
  | succ k ih =>
    simp only [cyc_seen, List.mem_cons, ih]
    constructor
    · rintro (h | h)
      · have := cyc_file_inj h
        omega
      · omega
    · intro h
      rcases Nat.lt_succ_iff_lt_or_eq.mp h with h2 | h2
      · exact Or.inr h2
      · exact Or.inl (by rw [h2])

/-- Around the cycle, file `i` includes file `i + 1` (before the wrap). -/
lemma cyc_next_eq (n i : Nat) (h : i + 1 < n) :
    cyc_next n (cyc_file i) = cyc_file (i + 1) := by
  unfold cyc_next
  rw [cyc_file_length, if_neg (by omega)]

/-- The last cycle file includes file `0` again. -/
lemma cyc_next_last (n : Nat) (h : 0 < n) :
    cyc_next n (cyc_file (n - 1)) = cyc_file 0 := by
  unfold cyc_next
  rw [cyc_file_length, if_pos (by omega)]

/-- One include step of the cycle run whose target has already been
seen: `get_next_token` raises `MetaphorParserFileAlreadyUsedError`
carrying the target filename and the filename token as
`self.current_token`, before any lexer is pushed. -/
lemma cyc_raise (n F i : Nat) (s : ParserState) (rest : List Lexer)
    (hlex : s.lexers = ⟨cycle_tokens n (cyc_file i), cyc_file i⟩ :: rest)
    (hin : cyc_next n (cyc_file i) ∈ s.previously_seen_files) :
    get_next_token (cycleEnv n) (F + 3) s =
      .exn (.fileAlreadyUsed (cyc_next n (cyc_file i))
        (some ⟨.KEYWORD_TEXT, cyc_next n (cyc_file i), "", cyc_file i, 1, 10⟩))
        { s with
          lexers := ⟨[], cyc_file i⟩ :: rest,
          current_token := some ⟨.KEYWORD_TEXT, cyc_next n (cyc_file i), "", cyc_file i, 1, 10⟩ } := by
  rw [show F + 3 = (F + 2) + 1 from rfl]
  simp only [get_next_token, hlex, cycle_tokens, Lexer.next]
  rw [show F + 2 = (F + 1) + 1 from rfl]
  simp only [parse_include]
  rw [show F + 1 = F + 1 from rfl]
  simp only [get_next_token, Lexer.next, check_file_not_loaded, cycleEnv]
  rw [if_pos hin]
  simp

/-- One successful include step of the cycle run: the target file is
checked against the seen set, recorded, resolved, read, and its lexer
pushed; the walk continues with one unit less fuel. -/
lemma cyc_step (n F i : Nat) (s : ParserState) (rest : List Lexer)
    (hlex : s.lexers = ⟨cycle_tokens n (cyc_file i), cyc_file i⟩ :: rest)
    (hnotin : cyc_next n (cyc_file i) ∉ s.previously_seen_files) :
    get_next_token (cycleEnv n) (F + 3) s =
      get_next_token (cycleEnv n) (F + 2)
        { s with
          lexers := ⟨cycle_tokens n (cyc_next n (cyc_file i)), cyc_next n (cyc_file i)⟩ ::
            ⟨[], cyc_file i⟩ :: rest,
          previously_seen_files := cyc_next n (cyc_file i) :: s.previously_seen_files,
          current_token := some ⟨.KEYWORD_TEXT, cyc_next n (cyc_file i), "", cyc_file i, 1, 10⟩ } := by
  conv_lhs =>
    rw [show F + 3 = (F + 2) + 1 from rfl]
    rw [get_next_token]
  simp only [hlex, cycle_tokens, Lexer.next]
  rw [show F + 2 = (F + 1) + 1 from rfl]
  simp only [parse_include]
  simp only [get_next_token, Lexer.next, check_file_not_loaded, cycleEnv]
  rw [if_neg hnotin]
  simp [find_file_path, read_file, MetaphorLexer, cycle_tokens]

/-- Going around the cycle from file `i` with `m = n - 1 - i` files
still unseen always ends in the file-already-used exception for file
`0`, raised from the last cycle file's include directive, with the
error list untouched (fuel linear in `m`). -/
lemma cyc_run (n : Nat) (hn : 0 < n) : ∀ m i F s rest,
    i + m = n - 1 →
    s.lexers = ⟨cycle_tokens n (cyc_file i), cyc_file i⟩ :: rest →
    s.previously_seen_files = cyc_seen (i + 1) →
    ∃ s', get_next_token (cycleEnv n) (m + F + 3) s =
        .exn (.fileAlreadyUsed (cyc_file 0)
          (some ⟨.KEYWORD_TEXT, cyc_file 0, "", cyc_file (n - 1), 1, 10⟩)) s' ∧
      s'.parse_errors = s.parse_errors := by
  intro m
  induction m with
  | zero =>
    intro i F s rest hm hlex hseen
    have hi : i = n - 1 := by omega
    subst hi
    have hin : cyc_next n (cyc_file (n - 1)) ∈ s.previously_seen_files := by
      rw [hseen, cyc_next_last n hn, show n - 1 + 1 = n from by omega]
      exact (mem_cyc_seen 0 n).mpr hn
    rw [show 0 + F + 3 = F + 3 from by omega]
    rw [cyc_raise n F (n - 1) s rest hlex hin]
    rw [cyc_next_last n hn]
    exact ⟨_, rfl, rfl⟩
  | succ m ih =>
    intro i F s rest hm hlex hseen
    have hlt : i + 1 < n := by omega
    have hnotin : cyc_next n (cyc_file i) ∉ s.previously_seen_files := by
      rw [hseen, cyc_next_eq n i hlt]
      intro hmem
      exact absurd ((mem_cyc_seen (i + 1) (i + 1)).mp hmem) (lt_irrefl _)
    rw [show m + 1 + F + 3 = (m + F + 1) + 3 from by omega]
    rw [cyc_step n (m + F + 1) i s rest hlex hnotin]
    rw [show m + F + 1 + 2 = m + F + 3 from by omega]
    obtain ⟨s', h1, h2⟩ := ih (i + 1) F
      { s with
        lexers := ⟨cycle_tokens n (cyc_next n (cyc_file i)), cyc_next n (cyc_file i)⟩ ::
          ⟨[], cyc_file i⟩ :: rest,
        previously_seen_files := cyc_next n (cyc_file i) :: s.previously_seen_files,
        current_token := some ⟨.KEYWORD_TEXT, cyc_next n (cyc_file i), "", cyc_file i, 1, 10⟩ }
      (⟨[], cyc_file i⟩ :: rest) (by omega)
      (by rw [cyc_next_eq n i hlt])
      (by rw [cyc_next_eq n i hlt]
          show cyc_file (i + 1) :: s.previously_seen_files = cyc_seen (i + 1 + 1)
          rw [hseen]
          rfl)
    exact ⟨s', h1, h2⟩

/-- The top-level loop propagates an exception from the token fetch. -/
lemma parse_loop_exn (env : Env) (fuel : Nat) (s : ParserState) (sa sc sr : Bool)
    (e : ParseExn) (s' : ParserState)
    (h : get_next_token env fuel s = .exn e s') :
    parse_loop env (fuel + 1) s sa sc sr = .exn e s' := by
  simp only [parse_loop, h]

/-- C2: for every cycle length `n ≥ 1`, parsing the cycle environment's
document (whose `Include` directives form an `n`-cycle) terminates —
with fuel linear in `n` — by raising the wrapped file-already-used
condition: the include filename is checked against the set of
canonicalized paths of already-consumed files before a new lexer is
pushed, so the second encounter of file `0` raises instead of looping
forever. -/
theorem include_cycle_detected (n : Nat) (hn : 0 < n) :
    (parse (cycleEnv n) (n + 10) "" (cyc_file (n - 1)) []).raised =
      some ("parser error",
        [⟨"The file '" ++ cyc_file 0 ++ "' has already been used",
          cyc_file (n - 1), 1, 10, ""⟩]) := by
  have hstep := cyc_step n (n + 6) (n - 1)
    (generate_preamble { MetaphorParser.init with
      search_paths := [],
      lexers := [MetaphorLexer (cycleEnv n) "" (cyc_file (n - 1))] })
    [] rfl (List.not_mem_nil _)
  rw [cyc_next_last n hn] at hstep
  rw [show n + 6 + 2 = (n - 1) + 6 + 3 from by omega] at hstep
  obtain ⟨s', h1, h2⟩ := cyc_run n hn (n - 1) 0 6
    { (generate_preamble { MetaphorParser.init with
        search_paths := [],
        lexers := [MetaphorLexer (cycleEnv n) "" (cyc_file (n - 1))] }) with
      lexers := ⟨cycle_tokens n (cyc_file 0), cyc_file 0⟩ :: ⟨[], cyc_file (n - 1)⟩ :: [],
      previously_seen_files := cyc_file 0 ::
        (generate_preamble { MetaphorParser.init with
          search_paths := [],
          lexers := [MetaphorLexer (cycleEnv n) "" (cyc_file (n - 1))] }).previously_seen_files,
      current_token := some ⟨.KEYWORD_TEXT, cyc_file 0, "", cyc_file (n - 1), 1, 10⟩ }
    [⟨[], cyc_file (n - 1)⟩] (by omega) rfl rfl
  rw [h1] at hstep
  have hGNT : get_next_token (cycleEnv n) (n + 9)
      (generate_preamble { MetaphorParser.init with
        search_paths := [],
        lexers := MetaphorLexer (cycleEnv n) "" (cyc_file (n - 1)) ::
          MetaphorParser.init.lexers }) =
      .exn (.fileAlreadyUsed (cyc_file 0)
        (some ⟨.KEYWORD_TEXT, cyc_file 0, "", cyc_file (n - 1), 1, 10⟩)) s' := by
    rw [show n + 9 = n + 6 + 3 from by omega]
    exact hstep
  simp only [parse, parse_core]
  rw [show n + 10 = (n + 9) + 1 from by omega]
  rw [parse_loop_exn _ _ _ _ _ _ _ _ hGNT]
  simp only [ParseOutcome.raised]
  rw [h2]
  simp only [show ∀ X : ParserState, (generate_preamble X).parse_errors = X.parse_errors
    from fun X => rfl]
  simp [MetaphorParser.init]

/-- Witness for C2 at cycle length 3. -/
theorem include_cycle_detected_witness :
    (parse (cycleEnv 3) (3 + 10) "" (cyc_file (3 - 1)) []).raised =
      some ("parser error",
        [⟨"The file '" ++ cyc_file 0 ++ "' has already been used",
          cyc_file (3 - 1), 1, 10, ""⟩]) :=
  include_cycle_detected 3 (by decide)
